import Mathlib

/-!
Shallow embedding of `src/python_modules/dagster/dagster/_core/definitions/auto_materialize_rule.py`.

Modelling conventions, used consistently below:
- Python `set` / `frozenset` values are represented by Lean `List`s holding an
  enumeration of the set; properties are stated through membership, and where the
  Python code compares two sets for equality the embedding uses `listSetEq`
  (mutual containment) rather than list equality.
- Python `dict` values (the `defaultdict(set)` accumulators of the rules) are
  represented by association lists `List (key × List value)`; `assocInsert` is
  `d[key].add(v)` and `bucketOf` is `d.get(key, set())`.
- External collaborators that the source file imports but that are not part of
  this repository snapshot (the asset graph, the instance queryer, the daemon
  context, `SerializedPartitionsSubset.can_deserialize` / `deserialize`) are
  modelled as oracle fields: opaque functions supplied in the evaluation context,
  matching the collaborator interfaces the source calls.
- Machine integers only appear as counts and limits; they are modelled as `Nat`
  (no overflow is involved: Python integers are unbounded).
-/

/-! ### Generic set-as-list and association-list helpers -/

/-- Union of two Python sets enumerated as lists: keeps the left enumeration and
appends the unseen part of the right one. -/
def listUnion {α : Type} [DecidableEq α] (l1 l2 : List α) : List α :=
  l1 ++ l2.filter (fun x => decide (x ∉ l1))

/-- Difference of two Python sets enumerated as lists. -/
def listDiff {α : Type} [DecidableEq α] (l1 l2 : List α) : List α :=
  l1.filter (fun x => decide (x ∉ l2))

/-- Intersection of two Python sets enumerated as lists. -/
def listInter {α : Type} [DecidableEq α] (l1 l2 : List α) : List α :=
  l1.filter (fun x => decide (x ∈ l2))

/-- Python `set.add`: appends the element unless it is already present. -/
def setAdd {α : Type} [DecidableEq α] (l : List α) (a : α) : List α :=
  if a ∈ l then l else l ++ [a]

/-- Cardinality of a Python set enumerated as a list (duplicates ignored). -/
def setCard {α : Type} [DecidableEq α] (l : List α) : Nat :=
  l.dedup.length

/-- Python set equality on two enumerations: mutual containment. -/
def listSetEq {α : Type} [DecidableEq α] (a b : List α) : Bool :=
  a.all (fun x => decide (x ∈ b)) && b.all (fun x => decide (x ∈ a))

/-- Elementwise equality of two lists under a custom element comparison
(Python `[...] == [...]` with the given element semantics). -/
def listEqBy {α : Type} (f : α → α → Bool) : List α → List α → Bool
  | [], [] => true
  | a :: l1, b :: l2 => f a b && listEqBy f l1 l2
  | _, _ => false

/-- Python `defaultdict(set)` insertion `d[k].add(b)`: adds `b` to the bucket of
the first entry keyed `k`, or appends a fresh singleton bucket when `k` is not a
key yet (new dict keys go to the end, as in Python 3.7+ insertion order). -/
def assocInsert {κ α : Type} [DecidableEq κ] [DecidableEq α]
    (m : List (κ × List α)) (k : κ) (b : α) : List (κ × List α) :=
  match m with
  | [] => [(k, [b])]
  | e :: rest => if e.1 = k then (e.1, setAdd e.2 b) :: rest else e :: assocInsert rest k b

/-- Python `d.get(k, set())` on an association list: the bucket of the first
entry keyed `k`, or the empty set. -/
def bucketOf {κ α : Type} [DecidableEq κ] (m : List (κ × List α)) (k : κ) : List α :=
  match m with
  | [] => []
  | e :: rest => if e.1 = k then e.2 else bucketOf rest k

/-! ### Data model (events.py / partition.py collaborators, lines 25, 41) -/

/-- AssetKey (external collaborator `dagster._core.definitions.events.AssetKey`):
a stable identifier, a path of name components. -/
structure AssetKey where
  path : List String
deriving DecidableEq, Repr

/-- AssetKeyPartitionKey (external collaborator): the atomic unit of decision,
an asset key with an optional partition key. -/
structure AssetKeyPartitionKey where
  assetKey : AssetKey
  partitionKey : Option String
deriving DecidableEq, Repr

/-- AutoMaterializeDecisionType (source lines 49-62). -/
inductive AutoMaterializeDecisionType where
  | MATERIALIZE
  | SKIP
  | DISCARD
deriving DecidableEq, Repr

/-- AutoMaterializeRuleEvaluationData (source lines 65-99): one of the three
payload variants. The `FrozenSet[AssetKey]` fields are modelled as enumeration
lists (see the conventions above). -/
inductive AutoMaterializeRuleEvaluationData where
  | text (text : String)
  | parentUpdated (updatedAssetKeys willUpdateAssetKeys : List AssetKey)
  | waitingOnAssets (waitingOnAssetKeys : List AssetKey)
deriving DecidableEq, Repr

/-- AutoMaterializeRuleSnapshot (source lines 102-116): the durable rule
identity: class name, human description, decision type. -/
structure AutoMaterializeRuleSnapshot where
  className : String
  description : String
  decisionType : AutoMaterializeDecisionType
deriving DecidableEq, Repr

/-- AutoMaterializeRuleEvaluation (source lines 119-122). -/
structure AutoMaterializeRuleEvaluation where
  ruleSnapshot : AutoMaterializeRuleSnapshot
  evaluationData : Option AutoMaterializeRuleEvaluationData
deriving DecidableEq, Repr

/-- SerializedPartitionsSubset (external collaborator from partition.py): its
payload is kept as one opaque string; whether and how it deserializes against a
partitions definition is answered by the `PartitionsDef` oracle. -/
structure SerializedPartitionsSubset where
  serializedData : String
deriving DecidableEq, Repr

/-- PartitionsDef (external collaborator): an oracle answering
`SerializedPartitionsSubset.can_deserialize` and `.deserialize(...).get_partition_keys()`. -/
structure PartitionsDef where
  canDeserialize : SerializedPartitionsSubset → Bool
  deserialize : SerializedPartitionsSubset → List String

/-! ### The closed set of rules (source lines 297-880) -/

/-- AutoMaterializeRule: the closed set of concrete rule classes, one
constructor per `@whitelist_for_serdes` class of the source, each carrying
exactly the configuration fields of its `NamedTuple`. -/
inductive AutoMaterializeRule where
  | materializeOnRequiredForFreshnessRule
  | materializeOnParentUpdatedRule
  | materializeOnMissingRule
  | skipOnParentOutdatedRule
  | skipOnParentMissingRule
  | skipOnNotAllParentsUpdatedRule (requireUpdateForAllParentPartitions : Bool)
  | skipOnRequiredButNonexistentParentsRule
  | skipOnBackfillInProgressRule (allPartitions : Bool)
  | discardOnMaxMaterializationsExceededRule (limit : Nat)
deriving DecidableEq, Repr

/-- Python `type(self).__name__` for each rule class. -/
def AutoMaterializeRule.className : AutoMaterializeRule → String
  | .materializeOnRequiredForFreshnessRule => "MaterializeOnRequiredForFreshnessRule"
  | .materializeOnParentUpdatedRule => "MaterializeOnParentUpdatedRule"
  | .materializeOnMissingRule => "MaterializeOnMissingRule"
  | .skipOnParentOutdatedRule => "SkipOnParentOutdatedRule"
  | .skipOnParentMissingRule => "SkipOnParentMissingRule"
  | .skipOnNotAllParentsUpdatedRule _ => "SkipOnNotAllParentsUpdatedRule"
  | .skipOnRequiredButNonexistentParentsRule => "SkipOnRequiredButNonexistentParentsRule"
  | .skipOnBackfillInProgressRule _ => "SkipOnBackfillInProgressRule"
  | .discardOnMaxMaterializationsExceededRule _ => "DiscardOnMaxMaterializationsExceededRule"

/-- The `decision_type` property of each rule class. -/
def AutoMaterializeRule.decisionType : AutoMaterializeRule → AutoMaterializeDecisionType
  | .materializeOnRequiredForFreshnessRule => .MATERIALIZE
  | .materializeOnParentUpdatedRule => .MATERIALIZE
  | .materializeOnMissingRule => .MATERIALIZE
  | .skipOnParentOutdatedRule => .SKIP
  | .skipOnParentMissingRule => .SKIP
  | .skipOnNotAllParentsUpdatedRule _ => .SKIP
  | .skipOnRequiredButNonexistentParentsRule => .SKIP
  | .skipOnBackfillInProgressRule _ => .SKIP
  | .discardOnMaxMaterializationsExceededRule _ => .DISCARD

/-- The `description` property of each rule class: the literal strings of the
source, including the configuration-dependent ones (source lines 471-472, 495-496,
557-558, 602-603, 645-646, 709-713, 791-792, 829-833, 866-868). -/
def AutoMaterializeRule.description : AutoMaterializeRule → String
  | .materializeOnRequiredForFreshnessRule =>
      "required to meet this or downstream asset\x27s freshness policy"
  | .materializeOnParentUpdatedRule => "upstream data has changed since latest materialization"
  | .materializeOnMissingRule => "materialization is missing"
  | .skipOnParentOutdatedRule => "waiting on upstream data to be up to date"
  | .skipOnParentMissingRule => "waiting on upstream data to be present"
  | .skipOnNotAllParentsUpdatedRule requireUpdateForAllParentPartitions =>
      if requireUpdateForAllParentPartitions = false then
        "waiting on upstream data to be updated"
      else
        "waiting until all upstream partitions are updated"
  | .skipOnRequiredButNonexistentParentsRule => "required parent partitions do not exist"
  | .skipOnBackfillInProgressRule allPartitions =>
      if allPartitions then
        "part of an asset targeted by an in-progress backfill"
      else
        "targeted by an in-progress backfill"
  | .discardOnMaxMaterializationsExceededRule limit =>
      "exceeds " ++ toString limit ++ " materialization(s) per minute"

/-- AutoMaterializeRuleSnapshot.from_rule / AutoMaterializeRule.to_snapshot
(source lines 110-116 and 449-451). -/
def AutoMaterializeRule.toSnapshot (rule : AutoMaterializeRule) : AutoMaterializeRuleSnapshot :=
  ⟨rule.className, rule.description, rule.decisionType⟩

/-- A primitive Python value sitting in a rule's NamedTuple fields, for the
`__eq__` / `__hash__` model. -/
inductive PyConfigValue where
  | pyBool (b : Bool)
  | pyInt (n : Nat)
deriving DecidableEq, Repr

/-- The tuple content `tuple(self)` that `NamedTuple.__eq__` / `__hash__`
compare: exactly the configuration fields of each rule class. -/
def AutoMaterializeRule.fieldsTuple : AutoMaterializeRule → List PyConfigValue
  | .skipOnNotAllParentsUpdatedRule b => [.pyBool b]
  | .skipOnBackfillInProgressRule b => [.pyBool b]
  | .discardOnMaxMaterializationsExceededRule n => [.pyInt n]
  | _ => []

/-- AutoMaterializeRule.__eq__ (source lines 453-455):
`type(self) == type(other) and super().__eq__(other)`. Class identity is
modelled by class-name equality (the classes of the module are in bijection
with their names), and the NamedTuple equality by equality of the field tuples. -/
def AutoMaterializeRule.ruleEq (a b : AutoMaterializeRule) : Bool :=
  decide (a.className = b.className) && decide (a.fieldsTuple = b.fieldsTuple)

/-- AutoMaterializeRule.__hash__ (source lines 457-459):
`hash(hash(type(self)) + super().__hash__())`. The primitive CPython hash
functions are oracles: `hashType` for `hash(type(self))` (keyed by the class
name, as classes are in bijection with their names), `hashTuple` for the
NamedTuple `super().__hash__()`, and `hashInt` for the outer integer hash. -/
def AutoMaterializeRule.ruleHash (hashType : String → Int) (hashInt : Int → Int)
    (hashTuple : List PyConfigValue → Int) (r : AutoMaterializeRule) : Int :=
  hashInt (hashType r.className + hashTuple r.fieldsTuple)

/-! ### The persisted asset evaluation record (source lines 883-1082) -/

/-- RuleEvaluationResults (source line 294): a sequence of (optional evaluation
data, set of asset partitions) pairs. -/
abbrev RuleEvaluationResults :=
  List (Option AutoMaterializeRuleEvaluationData × List AssetKeyPartitionKey)

/-- One element of `partition_subsets_by_condition`. -/
abbrev EvaluationCondition := AutoMaterializeRuleEvaluation × Option SerializedPartitionsSubset

/-- AutoMaterializeAssetEvaluation (source lines 883-910): the persisted
per-asset, per-tick record. -/
structure AutoMaterializeAssetEvaluation where
  assetKey : AssetKey
  partitionSubsetsByCondition : List EvaluationCondition
  numRequested : Nat
  numSkipped : Nat
  numDiscarded : Nat
  runIds : List String
  ruleSnapshots : Option (List AutoMaterializeRuleSnapshot)
deriving DecidableEq, Repr

/-- AutoMaterializeAssetEvaluation._deserialize_rule_evaluation_result (source
lines 964-987). `assetKey` is the record's own `self.asset_key`; `graph` is the
asset graph oracle `get_partitions_def`. Returns `none` exactly when the stored
result is no longer valid against the current partitions definition. -/
def deserializeRuleEvaluationResult (assetKey : AssetKey)
    (ruleEvaluation : AutoMaterializeRuleEvaluation)
    (serializedSubset : Option SerializedPartitionsSubset)
    (graph : AssetKey → Option PartitionsDef) :
    Option (Option AutoMaterializeRuleEvaluationData × List AssetKeyPartitionKey) :=
  match serializedSubset, graph assetKey with
  | none, none => some (ruleEvaluation.evaluationData, [⟨assetKey, none⟩])
  | none, some _ => none
  | some s, some partitionsDef =>
      -- the source guards with `can_deserialize(partitions_def) and partitions_def is not None`
      if partitionsDef.canDeserialize s then
        some (ruleEvaluation.evaluationData,
          (partitionsDef.deserialize s).map (fun partitionKey => ⟨assetKey, some partitionKey⟩))
      else
        none
  | some _, none => none

/-- AutoMaterializeAssetEvaluation.get_rule_evaluation_results (source lines
989-1003): the deserialized results of the entries whose rule snapshot matches,
entries that no longer deserialize silently dropped. -/
def AutoMaterializeAssetEvaluation.getRuleEvaluationResults
    (e : AutoMaterializeAssetEvaluation) (ruleSnapshot : AutoMaterializeRuleSnapshot)
    (graph : AssetKey → Option PartitionsDef) : RuleEvaluationResults :=
  (e.partitionSubsetsByCondition.filter
      (fun p => decide (p.1.ruleSnapshot = ruleSnapshot))).filterMap
    (fun p => deserializeRuleEvaluationResult e.assetKey p.1 p.2 graph)

/-- AutoMaterializeAssetEvaluation._get_asset_partitions_with_decision_type
(source lines 1005-1019). -/
def AutoMaterializeAssetEvaluation.getAssetPartitionsWithDecisionType
    (e : AutoMaterializeAssetEvaluation) (decisionType : AutoMaterializeDecisionType)
    (graph : AssetKey → Option PartitionsDef) : List AssetKeyPartitionKey :=
  (e.partitionSubsetsByCondition.filter
      (fun p => decide (p.1.ruleSnapshot.decisionType = decisionType))).foldl
    (fun assetPartitions p =>
      match deserializeRuleEvaluationResult e.assetKey p.1 p.2 graph with
      | some result => listUnion assetPartitions result.2
      | none => assetPartitions)
    []

/-- AutoMaterializeAssetEvaluation.get_requested_or_discarded_asset_partitions
(source lines 1021-1035). -/
def AutoMaterializeAssetEvaluation.getRequestedOrDiscardedAssetPartitions
    (e : AutoMaterializeAssetEvaluation) (graph : AssetKey → Option PartitionsDef) :
    List AssetKeyPartitionKey :=
  let toMaterialize := e.getAssetPartitionsWithDecisionType .MATERIALIZE graph
  if toMaterialize.isEmpty then []
  else listDiff toMaterialize (e.getAssetPartitionsWithDecisionType .SKIP graph)

/-- AutoMaterializeAssetEvaluation.get_evaluated_asset_partitions (source lines
1037-1045): only MATERIALIZE firings count. -/
def AutoMaterializeAssetEvaluation.getEvaluatedAssetPartitions
    (e : AutoMaterializeAssetEvaluation) (graph : AssetKey → Option PartitionsDef) :
    List AssetKeyPartitionKey :=
  e.getAssetPartitionsWithDecisionType .MATERIALIZE graph

/-- A deterministic sort key for `sorted(self.partition_subsets_by_condition)`
(source lines 1056-1057). Python sorts these tuples lexicographically; the
embedding uses one string key per entry computed from the entry's components.
The exact tie order among entries with equal keys is immaterial to every
property proved below. -/
def conditionSortKey (p : EvaluationCondition) : String :=
  p.1.ruleSnapshot.className ++ "|" ++ p.1.ruleSnapshot.description ++ "|" ++
    (match p.1.ruleSnapshot.decisionType with
      | .MATERIALIZE => "0"
      | .SKIP => "1"
      | .DISCARD => "2") ++ "|" ++
    (match p.1.evaluationData with
      | none => "0"
      | some (.text t) => "1t" ++ t
      | some (.parentUpdated us ws) => "2p" ++ toString us.length ++ "," ++ toString ws.length
      | some (.waitingOnAssets ks) => "3w" ++ toString ks.length) ++ "|" ++
    (match p.2 with
      | none => "0"
      | some s => "1" ++ s.serializedData)

/-- Comparison relation for sorting evaluation conditions. -/
def conditionLE (a b : EvaluationCondition) : Prop :=
  conditionSortKey a ≤ conditionSortKey b

instance : DecidableRel conditionLE :=
  fun a b => inferInstanceAs (Decidable (conditionSortKey a ≤ conditionSortKey b))

/-- Python `sorted(...)` over evaluation conditions (a stable comparison sort). -/
def sortConditions (l : List EvaluationCondition) : List EvaluationCondition :=
  List.insertionSort conditionLE l

/-- Equality of two deserialized rule evaluation results as Python compares
them inside `equivalent_to_stored_evaluation`: the evaluation-data component by
its own equality, the asset-partition component by set equality. -/
def deserializedResultEq
    (a b : Option (Option AutoMaterializeRuleEvaluationData × List AssetKeyPartitionKey)) :
    Bool :=
  match a, b with
  | none, none => true
  | some x, some y => decide (x.1 = y.1) && listSetEq x.2 y.2
  | _, _ => false

/-- The deserializations, in sorted order, of a record's conditions, computed
with the `deserRecord`'s own asset key (the source maps
`self._deserialize_rule_evaluation_result` over both sorted lists). -/
def deserializedSortedConditions (deserRecord target : AutoMaterializeAssetEvaluation)
    (graph : AssetKey → Option PartitionsDef) :
    List (Option (Option AutoMaterializeRuleEvaluationData × List AssetKeyPartitionKey)) :=
  (sortConditions target.partitionSubsetsByCondition).map
    (fun p => deserializeRuleEvaluationResult deserRecord.assetKey p.1 p.2 graph)

/-- AutoMaterializeAssetEvaluation.equivalent_to_stored_evaluation (source lines
1047-1082). -/
def AutoMaterializeAssetEvaluation.equivalentToStoredEvaluation
    (e : AutoMaterializeAssetEvaluation) (stored : Option AutoMaterializeAssetEvaluation)
    (graph : AssetKey → Option PartitionsDef) : Bool :=
  match stored with
  | none => false
  | some se =>
    decide (e.assetKey = se.assetKey)
    && listSetEq (e.ruleSnapshots.getD []) (se.ruleSnapshots.getD [])
    -- if num_requested / num_discarded > 0 on the stored evaluation, then
    -- something changed in the global state on the previous tick
    && decide (se.numRequested = 0)
    && decide (se.numDiscarded = 0)
    && decide (se.numSkipped = e.numSkipped)
    && decide ((sortConditions e.partitionSubsetsByCondition).length
        = (sortConditions se.partitionSubsetsByCondition).length)
    -- first a quick check on the string representations, then the fallback
    -- through full deserialization
    && (decide (sortConditions e.partitionSubsetsByCondition
          = sortConditions se.partitionSubsetsByCondition)
        || listEqBy deserializedResultEq
             (deserializedSortedConditions e e graph)
             (deserializedSortedConditions e se graph))

/-! ### Backcompat graveyard (source lines 1085-1185) -/

/-- One value of the legacy `unpacked_dict`: either a set of asset keys (the
`isinstance(..., set)` branch of the source) or anything else. -/
inductive UnpackedValue where
  | keySet (ks : List AssetKey)
  | otherValue
deriving DecidableEq, Repr

/-- The legacy serialized payload: field name to unpacked value. -/
abbrev UnpackedDict := List (String × UnpackedValue)

/-- The class being deserialized (`self.klass` of the backcompat serializer):
the six retired condition classes, or any other class. -/
inductive BackcompatConditionClass where
  | freshnessAutoMaterializeCondition
  | downstreamFreshnessAutoMaterializeCondition
  | parentMaterializedAutoMaterializeCondition
  | missingAutoMaterializeCondition
  | parentOutdatedAutoMaterializeCondition
  | maxMaterializationsExceededAutoMaterializeCondition
  | otherClass (name : String)
deriving DecidableEq, Repr

/-- The `unpacked_dict.get(key)` plus `isinstance(value, set)` pattern of the
source (lines 1118-1129, 1138-1142): the stored key set, or the empty frozenset
when the field is absent or not a set. -/
def getFrozenAssetKeySet (d : UnpackedDict) (key : String) : List AssetKey :=
  match d.lookup key with
  | some (.keySet ks) => ks
  | _ => []

/-- BackcompatAutoMaterializeConditionSerializer.unpack (source lines 1098-1154).
`check.failed` on an unexpected class is modelled as `Except.error`. -/
def unpackLegacyCondition (klass : BackcompatConditionClass) (d : UnpackedDict) :
    Except String AutoMaterializeRuleEvaluation :=
  match klass with
  | .freshnessAutoMaterializeCondition =>
      .ok ⟨(AutoMaterializeRule.materializeOnRequiredForFreshnessRule).toSnapshot, none⟩
  | .downstreamFreshnessAutoMaterializeCondition =>
      .ok ⟨(AutoMaterializeRule.materializeOnRequiredForFreshnessRule).toSnapshot, none⟩
  | .missingAutoMaterializeCondition =>
      .ok ⟨(AutoMaterializeRule.materializeOnMissingRule).toSnapshot, none⟩
  | .parentMaterializedAutoMaterializeCondition =>
      .ok ⟨(AutoMaterializeRule.materializeOnParentUpdatedRule).toSnapshot,
        some (.parentUpdated (getFrozenAssetKeySet d "updated_asset_keys")
          (getFrozenAssetKeySet d "will_update_asset_keys"))⟩
  | .parentOutdatedAutoMaterializeCondition =>
      .ok ⟨(AutoMaterializeRule.skipOnParentOutdatedRule).toSnapshot,
        some (.waitingOnAssets (getFrozenAssetKeySet d "waiting_on_asset_keys"))⟩
  | .maxMaterializationsExceededAutoMaterializeCondition =>
      .ok ⟨(AutoMaterializeRule.discardOnMaxMaterializationsExceededRule 1).toSnapshot, none⟩
  | .otherClass name => .error ("Unexpected class " ++ name)

/-! ### The evaluation context (source lines 125-294) and its collaborators -/

/-- AssetGraphSubset (external collaborator): the target of all active
backfills, exposing its asset keys and asset-partition membership. -/
structure AssetGraphSubset where
  assetKeys : List AssetKey
  containsAssetPartition : AssetKeyPartitionKey → Bool

/-- The asset graph collaborator, reduced to the queries the source file makes
of it. `getParentsPartitions` is `get_parents_partitions(...).parent_partitions`. -/
structure AssetGraphOracle where
  materializableAssetKeys : List AssetKey
  haveSamePartitioning : AssetKey → AssetKey → Bool
  isPartitioned : AssetKey → Bool
  hasIdentityOrTimeWindowPartitionMapping : AssetKey → AssetKey → Bool
  isExternalAssetGraph : Bool
  repositoryHandle : AssetKey → Nat
  getParents : AssetKey → List AssetKey
  getParentsPartitions : AssetKeyPartitionKey → List AssetKeyPartitionKey
  isSource : AssetKey → Bool
  isObservable : AssetKey → Bool
  getPartitionsDef : AssetKey → Option PartitionsDef

/-- The CachingInstanceQueryer collaborator, reduced to the queries the source
file makes of it. `hasMaterializationOrObservationAfterLatestStorageId` is
`asset_partition_has_materialization_or_observation(ap, after_cursor=cursor.latest_storage_id)`.
`getParentAssetPartitionsUpdatedAfterChild` takes the child partition, the
parent partitions, the `respect_materialization_data_versions` flag and the
`ignored_parent_keys` set. -/
structure InstanceQueryerOracle where
  hasMaterializationOrObservation : AssetKeyPartitionKey → Bool
  hasMaterializationOrObservationAfterLatestStorageId : AssetKeyPartitionKey → Bool
  getParentAssetPartitionsUpdatedAfterChild :
    AssetKeyPartitionKey → List AssetKeyPartitionKey → Bool → List AssetKey →
      List AssetKeyPartitionKey
  getActiveBackfillTargetAssetGraphSubset : AssetGraphSubset

/-- RuleEvaluationContext (source lines 125-135): the per-asset, per-tick view.
`latestEvaluationByAssetKey` is `cursor.latest_evaluation_by_asset_key.get(asset_key)`;
`newlyUpdatedParentsPartitions` is the daemon context's
`get_asset_partitions_with_newly_updated_parents_for_key(asset_key)`;
`respectMaterializationDataVersions` is the daemon context's flag; and
`sortKeyForAssetPartition` is the `sort_key_for_asset_partition` function of
asset_graph.py, an external module. -/
structure RuleEvaluationContext where
  assetKey : AssetKey
  latestEvaluationByAssetKey : Option AutoMaterializeAssetEvaluation
  assetGraph : AssetGraphOracle
  instanceQueryer : InstanceQueryerOracle
  willMaterializeMapping : AssetKey → List AssetKeyPartitionKey
  candidates : List AssetKeyPartitionKey
  newlyUpdatedParentsPartitions : List AssetKeyPartitionKey
  respectMaterializationDataVersions : Bool
  sortKeyForAssetPartition : AssetKeyPartitionKey → Int

/-- RuleEvaluationContext.previous_tick_evaluation (source lines 140-143). -/
def RuleEvaluationContext.previousTickEvaluation (ctx : RuleEvaluationContext) :
    Option AutoMaterializeAssetEvaluation :=
  ctx.latestEvaluationByAssetKey

/-- RuleEvaluationContext.previous_tick_requested_or_discarded_asset_partitions
(source lines 145-154). -/
def RuleEvaluationContext.previousTickRequestedOrDiscardedAssetPartitions
    (ctx : RuleEvaluationContext) : List AssetKeyPartitionKey :=
  match ctx.previousTickEvaluation with
  | none => []
  | some e => e.getRequestedOrDiscardedAssetPartitions ctx.assetGraph.getPartitionsDef

/-- RuleEvaluationContext.previous_tick_evaluated_asset_partitions (source lines
156-165). -/
def RuleEvaluationContext.previousTickEvaluatedAssetPartitions
    (ctx : RuleEvaluationContext) : List AssetKeyPartitionKey :=
  match ctx.previousTickEvaluation with
  | none => []
  | some e => e.getEvaluatedAssetPartitions ctx.assetGraph.getPartitionsDef

/-- RuleEvaluationContext.get_previous_tick_results (source lines 167-173). -/
def RuleEvaluationContext.getPreviousTickResults (ctx : RuleEvaluationContext)
    (rule : AutoMaterializeRule) : RuleEvaluationResults :=
  match ctx.previousTickEvaluation with
  | none => []
  | some e => e.getRuleEvaluationResults rule.toSnapshot ctx.assetGraph.getPartitionsDef

/-- RuleEvaluationContext.get_candidates_not_evaluated_by_rule_on_previous_tick
(source lines 175-184). -/
def RuleEvaluationContext.getCandidatesNotEvaluatedByRuleOnPreviousTick
    (ctx : RuleEvaluationContext) : List AssetKeyPartitionKey :=
  listDiff ctx.candidates ctx.previousTickEvaluatedAssetPartitions

/-- RuleEvaluationContext.materializable_in_same_run (source lines 211-235). -/
def RuleEvaluationContext.materializableInSameRun (ctx : RuleEvaluationContext)
    (childKey parentKey : AssetKey) : Bool :=
  -- both assets must be materializable
  decide (childKey ∈ ctx.assetGraph.materializableAssetKeys)
  && decide (parentKey ∈ ctx.assetGraph.materializableAssetKeys)
  -- the parent must have the same partitioning
  && ctx.assetGraph.haveSamePartitioning childKey parentKey
  -- the parent must have a simple partition mapping to the child
  && (!ctx.assetGraph.isPartitioned parentKey
      || ctx.assetGraph.hasIdentityOrTimeWindowPartitionMapping childKey parentKey)
  -- the parent must be in the same repository to be materialized alongside the candidate
  && (!ctx.assetGraph.isExternalAssetGraph
      || decide (ctx.assetGraph.repositoryHandle childKey = ctx.assetGraph.repositoryHandle parentKey))

/-- RuleEvaluationContext.get_parents_that_will_not_be_materialized_on_current_tick
(source lines 237-253). -/
def RuleEvaluationContext.getParentsThatWillNotBeMaterializedOnCurrentTick
    (ctx : RuleEvaluationContext) (assetPartition : AssetKeyPartitionKey) :
    List AssetKeyPartitionKey :=
  (ctx.assetGraph.getParentsPartitions assetPartition).filter
    (fun parent =>
      decide (parent ∉ ctx.willMaterializeMapping parent.assetKey)
      || !ctx.materializableInSameRun assetPartition.assetKey parent.assetKey)

/-- RuleEvaluationContext.get_asset_partitions_with_updated_parents (source
lines 255-261): delegates to the daemon context. -/
def RuleEvaluationContext.getAssetPartitionsWithUpdatedParents
    (ctx : RuleEvaluationContext) : List AssetKeyPartitionKey :=
  ctx.newlyUpdatedParentsPartitions

/-- RuleEvaluationContext.get_will_update_parent_mapping (source lines 263-281):
for every parent key materializable in the same run and every parent partition
that will materialize this tick, record the parent key under this asset's
partition with the same partition key. -/
def RuleEvaluationContext.getWillUpdateParentMapping (ctx : RuleEvaluationContext) :
    List (AssetKeyPartitionKey × List AssetKey) :=
  (ctx.assetGraph.getParents ctx.assetKey).foldl
    (fun acc parentKey =>
      if ctx.materializableInSameRun ctx.assetKey parentKey then
        (ctx.willMaterializeMapping parentKey).foldl
          (fun acc2 parentPartition =>
            assocInsert acc2
              (⟨ctx.assetKey, parentPartition.partitionKey⟩ : AssetKeyPartitionKey) parentKey)
          acc
      else acc)
    []

/-- RuleEvaluationContext.get_candidates_with_updated_or_will_update_parents
(source lines 186-197). -/
def RuleEvaluationContext.getCandidatesWithUpdatedOrWillUpdateParents
    (ctx : RuleEvaluationContext) : List AssetKeyPartitionKey :=
  listInter ctx.candidates
    (listUnion ctx.getAssetPartitionsWithUpdatedParents
      (ctx.getWillUpdateParentMapping.map Prod.fst))

/-- RuleEvaluationContext.materialized_requested_or_discarded_since_previous_tick
(source lines 199-209). -/
def RuleEvaluationContext.materializedRequestedOrDiscardedSincePreviousTick
    (ctx : RuleEvaluationContext) (assetPartition : AssetKeyPartitionKey) : Bool :=
  decide (assetPartition ∈ ctx.previousTickRequestedOrDiscardedAssetPartitions)
  || ctx.instanceQueryer.hasMaterializationOrObservationAfterLatestStorageId assetPartition

/-! ### The carry-forward combinator (source lines 321-351) -/

/-- The set of asset partitions evaluated this tick: the union of the values of
`asset_partitions_by_evaluation_data` (source line 342). -/
def evaluatedAssetPartitionsOf (results : RuleEvaluationResults) : List AssetKeyPartitionKey :=
  (results.map Prod.snd).flatten

/-- One step of the carry-forward loop body (source lines 344-349): evaluated
data from this tick takes precedence over data from the previous tick; otherwise
a previous-tick partition is kept only when `should_use_past_data_fn` holds. -/
def carryForwardStep (evaluated : List AssetKeyPartitionKey)
    (shouldUsePastDataFn : AssetKeyPartitionKey → Bool)
    (evaluationData : Option AutoMaterializeRuleEvaluationData)
    (acc : RuleEvaluationResults) (ap : AssetKeyPartitionKey) : RuleEvaluationResults :=
  if ap ∈ evaluated then acc
  else if shouldUsePastDataFn ap then assocInsert acc evaluationData ap
  else acc

/-- AutoMaterializeRule.add_evaluation_data_from_previous_tick (source lines
321-351), with the previous-tick results passed as the `previous` argument (the
source obtains them as `context.get_previous_tick_results(self)`; the rule
evaluation functions below pass exactly that). -/
def addEvaluationDataFromPreviousTick
    (current previous : RuleEvaluationResults)
    (shouldUsePastDataFn : AssetKeyPartitionKey → Bool) : RuleEvaluationResults :=
  let evaluated := evaluatedAssetPartitionsOf current
  previous.foldl
    (fun acc e => e.2.foldl (carryForwardStep evaluated shouldUsePastDataFn e.1) acc)
    current

/-! ### The embedded rule evaluation functions -/

/-- The candidate narrowing shared by the skip rules (source lines 608-612,
654-658, 721-725): net-new candidates plus candidates whose parents changed. -/
def skipRuleCandidatesToEvaluate (ctx : RuleEvaluationContext) : List AssetKeyPartitionKey :=
  listUnion ctx.getCandidatesNotEvaluatedByRuleOnPreviousTick
    ctx.getCandidatesWithUpdatedOrWillUpdateParents

/-- SkipOnParentMissingRule.evaluate_for_asset (source lines 648-682). -/
def SkipOnParentMissingRule.evaluateForAsset (ctx : RuleEvaluationContext) :
    RuleEvaluationResults :=
  let candidatesToEvaluate := skipRuleCandidatesToEvaluate ctx
  let current := candidatesToEvaluate.foldl
    (fun acc candidate =>
      let missingParentAssetKeys :=
        (ctx.getParentsThatWillNotBeMaterializedOnCurrentTick candidate).foldl
          (fun s parent =>
            -- ignore non-observable sources, which will never have a materialization
            -- or observation
            if ctx.assetGraph.isSource parent.assetKey
                && !ctx.assetGraph.isObservable parent.assetKey then s
            else if !ctx.instanceQueryer.hasMaterializationOrObservation parent then
              setAdd s parent.assetKey
            else s)
          []
      if missingParentAssetKeys.isEmpty then acc
      else assocInsert acc (some (.waitingOnAssets missingParentAssetKeys)) candidate)
    []
  addEvaluationDataFromPreviousTick current
    (ctx.getPreviousTickResults .skipOnParentMissingRule)
    (fun ap => decide (ap ∉ candidatesToEvaluate))

/-- The `has_or_will_update` set of MaterializeOnParentUpdatedRule (source lines
508-510). -/
def parentUpdatedHasOrWillUpdate (ctx : RuleEvaluationContext) : List AssetKeyPartitionKey :=
  listUnion ctx.getAssetPartitionsWithUpdatedParents
    (ctx.getWillUpdateParentMapping.map Prod.fst)

/-- MaterializeOnParentUpdatedRule.evaluate_for_asset (source lines 498-547). -/
def MaterializeOnParentUpdatedRule.evaluateForAsset (ctx : RuleEvaluationContext) :
    RuleEvaluationResults :=
  let willUpdateParentsByAssetPartition := ctx.getWillUpdateParentMapping
  let hasOrWillUpdate := parentUpdatedHasOrWillUpdate ctx
  let current := hasOrWillUpdate.foldl
    (fun acc assetPartition =>
      let parentAssetPartitions := ctx.assetGraph.getParentsPartitions assetPartition
      let updatedParentAssetPartitions :=
        ctx.instanceQueryer.getParentAssetPartitionsUpdatedAfterChild
          assetPartition
          parentAssetPartitions
          -- do a precise check for updated parents, factoring in data versions, as
          -- long as we're within reasonable limits on the number of partitions to check
          (ctx.respectMaterializationDataVersions
            && decide (setCard (parentAssetPartitions ++ hasOrWillUpdate) < 100))
          -- ignore self-dependencies when checking for updated parents
          [ctx.assetKey]
      let updatedParents := (updatedParentAssetPartitions.map (fun p => p.assetKey)).dedup
      let willUpdateParents := bucketOf willUpdateParentsByAssetPartition assetPartition
      if updatedParents.isEmpty && willUpdateParents.isEmpty then acc
      else
        assocInsert acc (some (.parentUpdated updatedParents willUpdateParents)) assetPartition)
    []
  addEvaluationDataFromPreviousTick current
    (ctx.getPreviousTickResults .materializeOnParentUpdatedRule)
    (fun ap => !ctx.materializedRequestedOrDiscardedSincePreviousTick ap)

/-- SkipOnBackfillInProgressRule.evaluate_for_asset (source lines 835-855). -/
def SkipOnBackfillInProgressRule.evaluateForAsset (allPartitions : Bool)
    (ctx : RuleEvaluationContext) : RuleEvaluationResults :=
  let backfillingSubset := ctx.instanceQueryer.getActiveBackfillTargetAssetGraphSubset
  let backfillInProgressCandidates :=
    if allPartitions then
      ctx.candidates.filter (fun candidate =>
        decide (candidate.assetKey ∈ backfillingSubset.assetKeys))
    else
      ctx.candidates.filter (fun candidate =>
        backfillingSubset.containsAssetPartition candidate)
  if backfillInProgressCandidates.isEmpty then []
  else [(none, backfillInProgressCandidates)]

/-- The comparison relation `sorted(context.candidates, key=sort_key_for_asset_partition)`
sorts by. -/
def sortKeyLE (ctx : RuleEvaluationContext) (a b : AssetKeyPartitionKey) : Prop :=
  ctx.sortKeyForAssetPartition a ≤ ctx.sortKeyForAssetPartition b

instance (ctx : RuleEvaluationContext) : DecidableRel (sortKeyLE ctx) :=
  fun a b =>
    inferInstanceAs (Decidable (ctx.sortKeyForAssetPartition a ≤ ctx.sortKeyForAssetPartition b))

/-- DiscardOnMaxMaterializationsExceededRule.evaluate_for_asset (source lines
870-880): the asset partitions beyond position `limit` in sort-key order are
rate limited. Python's `sorted` (a stable comparison sort) is modelled by
insertion sort. -/
def DiscardOnMaxMaterializationsExceededRule.evaluateForAsset (limit : Nat)
    (ctx : RuleEvaluationContext) : RuleEvaluationResults :=
  let rateLimitedAssetPartitions :=
    (List.insertionSort (sortKeyLE ctx) ctx.candidates).drop limit
  if rateLimitedAssetPartitions.isEmpty then []
  else [(none, rateLimitedAssetPartitions)]

/-! ### The evaluation pipeline -/

/-- Modelled from the spec: the fixed-order evaluation pipeline of section 4.3
(its code, asset_daemon_context.py, is not under src/). Materialize rule outputs
are unioned into the candidate set; skip outputs are subtracted; discard outputs
are subtracted from the remainder to give the final requested set. -/
def pipelineFinalRequested (materializeOutputs skipOutputs discardOutputs :
    List (List AssetKeyPartitionKey)) : List AssetKeyPartitionKey :=
  let materializeUnion := materializeOutputs.foldl listUnion []
  let skipUnion := skipOutputs.foldl listUnion []
  let discardUnion := discardOutputs.foldl listUnion []
  listDiff (listDiff materializeUnion skipUnion) discardUnion

/-! ### Concrete fixtures used to instantiate the theorems below -/

/-- A concrete asset key. -/
def akA : AssetKey := ⟨["a"]⟩

/-- A second concrete asset key. -/
def akB : AssetKey := ⟨["b"]⟩

/-- The unpartitioned asset partition of `akA`. -/
def apA : AssetKeyPartitionKey := ⟨akA, none⟩

/-- The unpartitioned asset partition of `akB`. -/
def apB : AssetKeyPartitionKey := ⟨akB, none⟩

/-- Three partitions of `akA`. -/
def apP1 : AssetKeyPartitionKey := ⟨akA, some "p1"⟩

/-- Second partition of `akA`. -/
def apP2 : AssetKeyPartitionKey := ⟨akA, some "p2"⟩

/-- Third partition of `akA`. -/
def apP3 : AssetKeyPartitionKey := ⟨akA, some "p3"⟩

/-- An asset graph oracle describing a graph with no edges and only
unpartitioned assets. -/
def emptyAssetGraphOracle : AssetGraphOracle :=
  ⟨[], fun _ _ => false, fun _ => false, fun _ _ => false, false, fun _ => 0,
    fun _ => [], fun _ => [], fun _ => false, fun _ => false, fun _ => none⟩

/-- An instance queryer oracle with no recorded events and no active backfill. -/
def emptyInstanceQueryerOracle : InstanceQueryerOracle :=
  ⟨fun _ => false, fun _ => false, fun _ _ _ _ => [], ⟨[], fun _ => false⟩⟩

/-- A previous-tick record for `akA` holding one skip firing of
SkipOnParentMissingRule over the unpartitioned partition. -/
def previousSkipRecord : AutoMaterializeAssetEvaluation :=
  ⟨akA,
    [(⟨(AutoMaterializeRule.skipOnParentMissingRule).toSnapshot,
        some (.waitingOnAssets [akB])⟩, none)],
    0, 1, 0, [], none⟩

/-- The context of the C1 counterexample: the current candidate set is empty,
while the cursor still holds last tick's skip firing for `apA`. -/
def ctxCarryForward : RuleEvaluationContext :=
  ⟨akA, some previousSkipRecord, emptyAssetGraphOracle, emptyInstanceQueryerOracle,
    fun _ => [], [], [], false, fun _ => 0⟩

/-- Fresh results of a hypothetical rule for the carry-forward instantiation. -/
def currentResultsFixture : RuleEvaluationResults := [(some (.text "fresh"), [apA])]

/-- Previous-tick results for the carry-forward instantiation. -/
def previousResultsFixture : RuleEvaluationResults := [(some (.text "old"), [apA, apB])]

/-- A partitions definition oracle whose deserializer understands the two
encodings "x,y" and "y,x" of the same two-partition subset. -/
def partitionsDefXY : PartitionsDef :=
  ⟨fun _ => true,
    fun s =>
      if s.serializedData = "x,y" then ["x", "y"]
      else if s.serializedData = "y,x" then ["y", "x"]
      else []⟩

/-- A partitions-definition lookup: `akA` is partitioned by `partitionsDefXY`,
every other asset is unpartitioned. -/
def graphXY : AssetKey → Option PartitionsDef :=
  fun k => if k = akA then some partitionsDefXY else none

/-- One rule evaluation of the Missing rule with no data. -/
def missingRuleEvaluation : AutoMaterializeRuleEvaluation :=
  ⟨(AutoMaterializeRule.materializeOnMissingRule).toSnapshot, none⟩

/-- A record for `akA` whose only condition stores the subset encoded "x,y". -/
def recordEncodingXY : AutoMaterializeAssetEvaluation :=
  ⟨akA, [(missingRuleEvaluation, some ⟨"x,y"⟩)], 0, 0, 0, [], none⟩

/-- The same logical record with the subset encoded "y,x". -/
def recordEncodingYX : AutoMaterializeAssetEvaluation :=
  ⟨akA, [(missingRuleEvaluation, some ⟨"y,x"⟩)], 0, 0, 0, [], none⟩

/-- A partitions-definition lookup under which every asset is unpartitioned. -/
def unpartitionedGraph : AssetKey → Option PartitionsDef := fun _ => none

/-- The context used to instantiate the discard-rule theorems: three partitions
with distinct sort keys. -/
def ctxDiscard : RuleEvaluationContext :=
  ⟨akA, none, emptyAssetGraphOracle, emptyInstanceQueryerOracle, fun _ => [],
    [apP3, apP1, apP2], [], false,
    fun ap => if ap = apP1 then 1 else if ap = apP2 then 2 else 3⟩

/-- The context used to instantiate the backfill-rule theorems: an active
backfill targets exactly `apP1`, and the candidates are `apP1` and `apP2`. -/
def ctxBackfill : RuleEvaluationContext :=
  ⟨akA, none, emptyAssetGraphOracle,
    ⟨fun _ => false, fun _ => false, fun _ _ _ _ => [],
      ⟨[akA], fun ap => decide (ap = apP1)⟩⟩,
    fun _ => [], [apP1, apP2], [], false, fun _ => 0⟩

/-- The context used to instantiate the parent-updated theorems: `apA` has a
newly updated parent, and no oracle reports any update. -/
def ctxParentUpdated : RuleEvaluationContext :=
  ⟨akA, none, emptyAssetGraphOracle, emptyInstanceQueryerOracle, fun _ => [],
    [], [apA], true, fun _ => 0⟩

/-- A legacy payload with a stored key set under "updated_asset_keys" and a
non-set value under "will_update_asset_keys". -/
def legacyDictFixture : UnpackedDict :=
  [("updated_asset_keys", .keySet [akA]), ("will_update_asset_keys", .otherValue)]

/-- A CPython `hash(type(...))` oracle distinguishing the two classes of the
C8 instantiation. -/
def hashTypeFixture : String → Int :=
  fun s => if s = "MaterializeOnMissingRule" then 0 else 1

/-- A CPython tuple-hash oracle (constant: both tuples are empty). -/
def hashTupleFixture : List PyConfigValue → Int := fun _ => 0

/-- An updated-parents oracle answering the empty set on every call. -/
def constEmptyUpdatedOracle :
    AssetKeyPartitionKey → List AssetKeyPartitionKey → Bool → List AssetKey →
      List AssetKeyPartitionKey :=
  fun _ _ _ _ => []

/-! ### Helper lemmas about the set-as-list and association-list operations -/

theorem mem_listUnion {α : Type} [DecidableEq α] {a : α} {l1 l2 : List α} :
    a ∈ listUnion l1 l2 ↔ a ∈ l1 ∨ a ∈ l2 := by
  simp only [listUnion, List.mem_append, List.mem_filter, decide_eq_true_eq]
  by_cases h : a ∈ l1 <;> simp [h]

theorem mem_listDiff {α : Type} [DecidableEq α] {a : α} {l1 l2 : List α} :
    a ∈ listDiff l1 l2 ↔ a ∈ l1 ∧ a ∉ l2 := by
  simp [listDiff]

theorem mem_listInter {α : Type} [DecidableEq α] {a : α} {l1 l2 : List α} :
    a ∈ listInter l1 l2 ↔ a ∈ l1 ∧ a ∈ l2 := by
  simp [listInter]

theorem mem_setAdd {α : Type} [DecidableEq α] {a b : α} {l : List α} :
    a ∈ setAdd l b ↔ a ∈ l ∨ a = b := by
  by_cases h : b ∈ l
  · simp only [setAdd, if_pos h]
    constructor
    · exact Or.inl
    · rintro (hl | rfl) <;> [exact hl; exact h]
  · simp [setAdd, if_neg h]

theorem bucketOf_assocInsert {κ α : Type} [DecidableEq κ] [DecidableEq α]
    (m : List (κ × List α)) (k k' : κ) (b : α) :
    bucketOf (assocInsert m k b) k'
      = if k' = k then setAdd (bucketOf m k) b else bucketOf m k' := by
  induction m with
  | nil =>
    by_cases h : k' = k
    · subst h; simp [assocInsert, bucketOf, setAdd]
    · have hk : ¬(k = k') := fun hh => h hh.symm
      simp [assocInsert, bucketOf, h, hk]
  | cons e m ih =>
    by_cases he : e.1 = k
    · by_cases h : k' = k
      · subst h; simp [assocInsert, bucketOf, he]
      · have hne : ¬(e.1 = k') := fun hh => h (hh ▸ he)
        have hk : ¬(k = k') := fun hh => h hh.symm
        simp [assocInsert, bucketOf, he, hne, h, hk]
    · by_cases h : k' = k
      · subst h; simp [assocInsert, bucketOf, he, ih]
      · simp [assocInsert, bucketOf, he, ih, h]

theorem mem_bucketOf_assocInsert {κ α : Type} [DecidableEq κ] [DecidableEq α]
    {m : List (κ × List α)} {k k' : κ} {a b : α} :
    a ∈ bucketOf (assocInsert m k b) k' ↔ (k' = k ∧ a = b) ∨ a ∈ bucketOf m k' := by
  rw [bucketOf_assocInsert]
  by_cases h : k' = k
  · subst h; simp [mem_setAdd]; tauto
  · simp [h]

theorem mem_bucketOf_exists {κ α : Type} [DecidableEq κ]
    {m : List (κ × List α)} {k : κ} {a : α} (h : a ∈ bucketOf m k) :
    ∃ e ∈ m, e.1 = k ∧ a ∈ e.2 := by
  induction m with
  | nil => simp [bucketOf] at h
  | cons e m ih =>
    by_cases he : e.1 = k
    · exact ⟨e, List.mem_cons_self e m, he, by simpa [bucketOf, he] using h⟩
    · obtain ⟨e2, he2, hk, ha⟩ := ih (by simpa [bucketOf, he] using h)
      exact ⟨e2, List.mem_cons_of_mem e he2, hk, ha⟩

theorem keys_assocInsert {κ α : Type} [DecidableEq κ] [DecidableEq α]
    (m : List (κ × List α)) (k : κ) (b : α) :
    (assocInsert m k b).map Prod.fst
      = if k ∈ m.map Prod.fst then m.map Prod.fst else m.map Prod.fst ++ [k] := by
  induction m with
  | nil => simp [assocInsert]
  | cons e m ih =>
    by_cases he : e.1 = k
    · simp [assocInsert, he]
    · simp only [assocInsert, if_neg he, List.map_cons, ih, List.mem_cons]
      by_cases hk : k ∈ m.map Prod.fst
      · simp [hk, Ne.symm he]
      · simp [hk, Ne.symm he]

theorem nodup_keys_assocInsert {κ α : Type} [DecidableEq κ] [DecidableEq α]
    {m : List (κ × List α)} (k : κ) (b : α) (h : (m.map Prod.fst).Nodup) :
    ((assocInsert m k b).map Prod.fst).Nodup := by
  rw [keys_assocInsert]
  by_cases hk : k ∈ m.map Prod.fst
  · simpa [hk]
  · simpa [hk, List.nodup_append]

theorem mem_entry_bucketOf {κ α : Type} [DecidableEq κ]
    {m : List (κ × List α)} {e : κ × List α} {a : α}
    (hkeys : (m.map Prod.fst).Nodup) (he : e ∈ m) (ha : a ∈ e.2) :
    a ∈ bucketOf m e.1 := by
  induction m with
  | nil => cases he
  | cons f m ih =>
    rcases List.mem_cons.mp he with rfl | hm
    · simp [bucketOf, ha]
    · have hne : f.1 ≠ e.1 := by
        intro hh
        have : e.1 ∈ m.map Prod.fst := List.mem_map_of_mem Prod.fst hm
        rw [← hh] at this
        exact (List.nodup_cons.mp (by simpa using hkeys)).1 this
      have := ih (List.nodup_cons.mp (by simpa using hkeys)).2 hm
      simpa [bucketOf, hne] using this

theorem entries_eq_of_nodup_keys {κ α : Type}
    {m : List (κ × List α)} {e1 e2 : κ × List α}
    (hkeys : (m.map Prod.fst).Nodup) (h1 : e1 ∈ m) (h2 : e2 ∈ m) (hk : e1.1 = e2.1) :
    e1 = e2 := by
  induction m with
  | nil => cases h1
  | cons f m ih =>
    rw [List.map_cons, List.nodup_cons] at hkeys
    rcases List.mem_cons.mp h1 with rfl | hm1 <;> rcases List.mem_cons.mp h2 with rfl | hm2
    · rfl
    · have h2k : e2.1 ∈ m.map Prod.fst := List.mem_map_of_mem Prod.fst hm2
      rw [← hk] at h2k
      exact absurd h2k hkeys.1
    · have h1k : e1.1 ∈ m.map Prod.fst := List.mem_map_of_mem Prod.fst hm1
      rw [hk] at h1k
      exact absurd h1k hkeys.1
    · exact ih hkeys.2 hm1 hm2

/-! ### Helper lemmas about the carry-forward combinator -/

theorem mem_evaluatedAssetPartitionsOf {results : RuleEvaluationResults}
    {ap : AssetKeyPartitionKey} :
    ap ∈ evaluatedAssetPartitionsOf results ↔ ∃ e ∈ results, ap ∈ e.2 := by
  simp only [evaluatedAssetPartitionsOf, List.mem_flatten, List.mem_map]
  constructor
  · rintro ⟨s, ⟨e, he, rfl⟩, hap⟩
    exact ⟨e, he, hap⟩
  · rintro ⟨e, he, hap⟩
    exact ⟨e.2, ⟨e, he, rfl⟩, hap⟩

theorem mem_bucketOf_carryForwardFold (evaluated : List AssetKeyPartitionKey)
    (pred : AssetKeyPartitionKey → Bool) (k : Option AutoMaterializeRuleEvaluationData)
    (l : List AssetKeyPartitionKey) (acc : RuleEvaluationResults)
    (d : Option AutoMaterializeRuleEvaluationData) (ap : AssetKeyPartitionKey) :
    ap ∈ bucketOf (l.foldl (carryForwardStep evaluated pred k) acc) d ↔
      ap ∈ bucketOf acc d ∨ (ap ∈ l ∧ ap ∉ evaluated ∧ pred ap = true ∧ d = k) := by
  induction l generalizing acc with
  | nil => simp
  | cons x l ih =>
    rw [List.foldl_cons, ih]
    by_cases hax : ap = x
    · subst hax
      by_cases hx : ap ∈ evaluated
      · simp only [carryForwardStep, if_pos hx, List.mem_cons]
        tauto
      · by_cases hp : pred ap = true
        · simp only [carryForwardStep, if_neg hx, if_pos hp, mem_bucketOf_assocInsert,
            List.mem_cons]
          tauto
        · simp only [carryForwardStep, if_neg hx, if_neg hp, List.mem_cons]
          tauto
    · by_cases hx : x ∈ evaluated
      · simp only [carryForwardStep, if_pos hx, List.mem_cons]
        tauto
      · by_cases hp : pred x = true
        · simp only [carryForwardStep, if_neg hx, if_pos hp, mem_bucketOf_assocInsert,
            List.mem_cons]
          tauto
        · simp only [carryForwardStep, if_neg hx, if_neg hp, List.mem_cons]
          tauto

theorem mem_bucketOf_carryForwardOuter (evaluated : List AssetKeyPartitionKey)
    (pred : AssetKeyPartitionKey → Bool) (prev : RuleEvaluationResults)
    (acc : RuleEvaluationResults) (d : Option AutoMaterializeRuleEvaluationData)
    (ap : AssetKeyPartitionKey) :
    ap ∈ bucketOf
        (prev.foldl (fun acc2 e => e.2.foldl (carryForwardStep evaluated pred e.1) acc2) acc) d
      ↔ ap ∈ bucketOf acc d ∨
          (ap ∉ evaluated ∧ pred ap = true ∧ ∃ e ∈ prev, d = e.1 ∧ ap ∈ e.2) := by
  induction prev generalizing acc with
  | nil => simp
  | cons e prev ih =>
    rw [List.foldl_cons, ih, mem_bucketOf_carryForwardFold]
    constructor
    · rintro ((hacc | ⟨hmem, hev, hpred, rfl⟩) | ⟨hev, hpred, f, hf, rfl, hmem⟩)
      · exact Or.inl hacc
      · exact Or.inr ⟨hev, hpred, e, List.mem_cons_self e prev, rfl, hmem⟩
      · exact Or.inr ⟨hev, hpred, f, List.mem_cons_of_mem e hf, rfl, hmem⟩
    · rintro (hacc | ⟨hev, hpred, f, hf, rfl, hmem⟩)
      · exact Or.inl (Or.inl hacc)
      · rcases List.mem_cons.mp hf with rfl | hf2
        · exact Or.inl (Or.inr ⟨hmem, hev, hpred, rfl⟩)
        · exact Or.inr ⟨hev, hpred, f, hf2, rfl, hmem⟩

theorem mem_bucketOf_addEvaluationData {current previous : RuleEvaluationResults}
    {pred : AssetKeyPartitionKey → Bool} {d : Option AutoMaterializeRuleEvaluationData}
    {ap : AssetKeyPartitionKey} :
    ap ∈ bucketOf (addEvaluationDataFromPreviousTick current previous pred) d ↔
      ap ∈ bucketOf current d ∨
        (ap ∉ evaluatedAssetPartitionsOf current ∧ pred ap = true ∧
          ∃ e ∈ previous, d = e.1 ∧ ap ∈ e.2) := by
  unfold addEvaluationDataFromPreviousTick
  exact mem_bucketOf_carryForwardOuter _ _ _ _ _ _

theorem nodup_keys_carryForwardFold (evaluated : List AssetKeyPartitionKey)
    (pred : AssetKeyPartitionKey → Bool) (k : Option AutoMaterializeRuleEvaluationData)
    (l : List AssetKeyPartitionKey) (acc : RuleEvaluationResults)
    (h : (acc.map Prod.fst).Nodup) :
    (((l.foldl (carryForwardStep evaluated pred k) acc)).map Prod.fst).Nodup := by
  induction l generalizing acc with
  | nil => exact h
  | cons x l ih =>
    rw [List.foldl_cons]
    apply ih
    unfold carryForwardStep
    split
    · exact h
    · split
      · exact nodup_keys_assocInsert _ _ h
      · exact h

theorem nodup_keys_carryForwardOuter (evaluated : List AssetKeyPartitionKey)
    (pred : AssetKeyPartitionKey → Bool) (prev : RuleEvaluationResults)
    (acc : RuleEvaluationResults) (h : (acc.map Prod.fst).Nodup) :
    ((prev.foldl (fun acc2 e => e.2.foldl (carryForwardStep evaluated pred e.1) acc2) acc).map
      Prod.fst).Nodup := by
  induction prev generalizing acc with
  | nil => exact h
  | cons e prev ih =>
    rw [List.foldl_cons]
    exact ih _ (nodup_keys_carryForwardFold _ _ _ _ _ h)

theorem nodup_keys_addEvaluationData {current previous : RuleEvaluationResults}
    {pred : AssetKeyPartitionKey → Bool} (h : (current.map Prod.fst).Nodup) :
    (((addEvaluationDataFromPreviousTick current previous pred)).map Prod.fst).Nodup := by
  unfold addEvaluationDataFromPreviousTick
  exact nodup_keys_carryForwardOuter _ _ _ _ h

theorem mem_bucketOf_foldl_insertSelf
    (step : RuleEvaluationResults → AssetKeyPartitionKey → RuleEvaluationResults)
    (hstep : ∀ acc c d ap, ap ∈ bucketOf (step acc c) d → ap ∈ bucketOf acc d ∨ ap = c)
    (l : List AssetKeyPartitionKey) (acc : RuleEvaluationResults)
    (d : Option AutoMaterializeRuleEvaluationData) (ap : AssetKeyPartitionKey)
    (h : ap ∈ bucketOf (l.foldl step acc) d) : ap ∈ bucketOf acc d ∨ ap ∈ l := by
  induction l generalizing acc with
  | nil => exact Or.inl h
  | cons x l ih =>
    rw [List.foldl_cons] at h
    rcases ih _ h with h2 | h2
    · rcases hstep _ _ _ _ h2 with h3 | h3
      · exact Or.inl h3
      · exact Or.inr (h3 ▸ List.mem_cons_self x l)
    · exact Or.inr (List.mem_cons_of_mem x h2)

/-! ### Helper lemmas for the discard-rule sort -/

theorem length_filter_lt_of_mem_not {α : Type} (p : α → Bool) (l : List α) (x : α)
    (hx : x ∈ l) (hp : p x = false) : (l.filter p).length < l.length := by
  induction l with
  | nil => cases hx
  | cons y l ih =>
    rcases List.mem_cons.mp hx with rfl | hmem
    · rw [List.filter_cons, hp]
      simp only [cond_false, List.length_cons]
      exact Nat.lt_succ_of_le (List.length_filter_le p l)
    · rw [List.filter_cons]
      by_cases hy : p y = true
      · simp only [hy, cond_true, List.length_cons]
        exact Nat.succ_lt_succ (ih hmem)
      · simp only [Bool.not_eq_true] at hy
        simp only [hy, cond_false, List.length_cons]
        exact Nat.lt_succ_of_lt (ih hmem)

theorem pairwise_lt_of_sorted_nodup (key : AssetKeyPartitionKey → Int) :
    ∀ (s : List AssetKeyPartitionKey),
      s.Pairwise (fun a b => key a ≤ key b) → s.Nodup →
      (∀ a ∈ s, ∀ b ∈ s, key a = key b → a = b) →
      s.Pairwise (fun a b => key a < key b) := by
  intro s hle hnd hinj
  induction s with
  | nil => exact List.Pairwise.nil
  | cons x s ih =>
    rw [List.pairwise_cons] at hle ⊢
    rw [List.nodup_cons] at hnd
    refine ⟨?_, ih hle.2 hnd.2 ?_⟩
    · intro b hb
      refine lt_of_le_of_ne (hle.1 b hb) ?_
      intro hkey
      exact hnd.1 ((hinj x (List.mem_cons_self x s) b (List.mem_cons_of_mem x hb) hkey) ▸ hb)
    · intro a ha b hb hkey
      exact hinj a (List.mem_cons_of_mem x ha) b (List.mem_cons_of_mem x hb) hkey

theorem mem_drop_iff_of_pairwise_lt (key : AssetKeyPartitionKey → Int) :
    ∀ (s : List AssetKeyPartitionKey) (limit : Nat) (ap : AssetKeyPartitionKey),
      s.Pairwise (fun a b => key a < key b) →
      (ap ∈ s.drop limit ↔
        ap ∈ s ∧ limit ≤ (s.filter (fun b => decide (key b < key ap))).length) := by
  intro s
  induction s with
  | nil => intro limit ap _; simp
  | cons x s ih =>
    intro limit ap hp
    rw [List.pairwise_cons] at hp
    match limit with
    | 0 => simp
    | Nat.succ n =>
      rw [List.drop_succ_cons, ih n ap hp.2]
      by_cases hax : ap = x
      · subst hax
        constructor
        · rintro ⟨hmem, _⟩
          exact absurd rfl (ne_of_gt (hp.1 ap hmem))
        · rintro ⟨_, hlen⟩
          exfalso
          rw [List.filter_cons] at hlen
          have hself : (decide (key ap < key ap)) = false := by simp
          rw [hself] at hlen
          have : ∀ b ∈ s.filter (fun b => decide (key b < key ap)), False := by
            intro b hb
            rw [List.mem_filter] at hb
            exact absurd (of_decide_eq_true hb.2) (not_lt_of_gt (hp.1 b hb.1))
          match hfe : s.filter (fun b => decide (key b < key ap)) with
          | [] => rw [hfe] at hlen; simp at hlen
          | c :: _ => exact this c (hfe ▸ List.mem_cons_self c _)
      · by_cases hmem : ap ∈ s
        · have hx : key x < key ap := hp.1 ap hmem
          rw [List.filter_cons]
          have : (decide (key x < key ap)) = true := by simpa using hx
          rw [this]
          simp only [cond_true, List.length_cons, List.mem_cons]
          constructor
          · rintro ⟨h1, h2⟩
            exact ⟨Or.inr h1, Nat.succ_le_succ h2⟩
          · rintro ⟨_, h2⟩
            exact ⟨hmem, Nat.le_of_succ_le_succ h2⟩
        · constructor
          · rintro ⟨h1, _⟩
            exact absurd h1 hmem
          · rintro ⟨h1, _⟩
            rcases List.mem_cons.mp h1 with rfl | h1
            · exact absurd rfl hax
            · exact absurd h1 hmem

/-! ### Helper lemmas for the record-equivalence check -/

theorem listSetEq_refl {α : Type} [DecidableEq α] (l : List α) : listSetEq l l = true := by
  simp [listSetEq, List.all_eq_true]

theorem deserializedResultEq_refl
    (a : Option (Option AutoMaterializeRuleEvaluationData × List AssetKeyPartitionKey)) :
    deserializedResultEq a a = true := by
  cases a with
  | none => rfl
  | some x => simp [deserializedResultEq, listSetEq_refl]

theorem listEqBy_refl {α : Type} (f : α → α → Bool) (hf : ∀ a : α, f a a = true) :
    ∀ l : List α, listEqBy f l l = true
  | [] => rfl
  | a :: l => by
    simp only [listEqBy, hf a, Bool.true_and]
    exact listEqBy_refl f hf l

theorem listEqBy_length {α : Type} (f : α → α → Bool) :
    ∀ {l1 l2 : List α}, listEqBy f l1 l2 = true → l1.length = l2.length
  | [], [], _ => rfl
  | a :: l1, b :: l2, h => by
    simp only [listEqBy, Bool.and_eq_true] at h
    simp only [List.length_cons, listEqBy_length f h.2]
  | [], _ :: _, h => by simp [listEqBy] at h
  | _ :: _, [], h => by simp [listEqBy] at h

/-! ### The claims -/

/-- C3, counterexample: the claim says two DiscardOnMaxMaterializationsExceededRule
instances with different numeric limits produce equal snapshots; on the code
their descriptions embed the limit, so the snapshots differ. -/
theorem claim_c3_counterexample :
    (AutoMaterializeRule.discardOnMaxMaterializationsExceededRule 1).toSnapshot
      ≠ (AutoMaterializeRule.discardOnMaxMaterializationsExceededRule 2).toSnapshot := by
  decide

/-- C3, amended: the durable rule identity is exactly the triple (class name,
description, decision type): two rules produce equal snapshots precisely when
all three components coincide. The snapshot constructor takes no configuration
field directly, but the description of a configured rule embeds its
configuration, so differently-configured instances of
SkipOnNotAllParentsUpdatedRule and DiscardOnMaxMaterializationsExceededRule
produce different snapshots. -/
theorem claim_c3 :
    (∀ r1 r2 : AutoMaterializeRule,
      r1.toSnapshot = r2.toSnapshot ↔
        (r1.className = r2.className ∧ r1.description = r2.description ∧
          r1.decisionType = r2.decisionType))
    ∧ (AutoMaterializeRule.skipOnNotAllParentsUpdatedRule true).toSnapshot
        ≠ (AutoMaterializeRule.skipOnNotAllParentsUpdatedRule false).toSnapshot
    ∧ (AutoMaterializeRule.discardOnMaxMaterializationsExceededRule 1).toSnapshot
        ≠ (AutoMaterializeRule.discardOnMaxMaterializationsExceededRule 2).toSnapshot :=
  ⟨fun r1 r2 => by
      simp [AutoMaterializeRule.toSnapshot, AutoMaterializeRuleSnapshot.mk.injEq],
    by decide, by decide⟩

/-- C6: the legacy decode table is fixed and exhaustive: the two freshness
conditions decode to the RequiredForFreshness identity with no data, the missing
condition to the Missing identity with no data, the parent-materialized
condition to the ParentUpdated identity with the stored updated/will-update key
sets (the empty set whenever the field is absent or not a set), the
parent-outdated condition to the ParentOutdated identity with the stored
waiting-on set, the max-materializations condition to the
MaxMaterializationsExceeded identity with limit 1, and any other legacy class is
a hard decode failure. -/
theorem claim_c6 (d : UnpackedDict) :
    unpackLegacyCondition .freshnessAutoMaterializeCondition d
      = .ok ⟨(AutoMaterializeRule.materializeOnRequiredForFreshnessRule).toSnapshot, none⟩
    ∧ unpackLegacyCondition .downstreamFreshnessAutoMaterializeCondition d
      = .ok ⟨(AutoMaterializeRule.materializeOnRequiredForFreshnessRule).toSnapshot, none⟩
    ∧ unpackLegacyCondition .missingAutoMaterializeCondition d
      = .ok ⟨(AutoMaterializeRule.materializeOnMissingRule).toSnapshot, none⟩
    ∧ unpackLegacyCondition .parentMaterializedAutoMaterializeCondition d
      = .ok ⟨(AutoMaterializeRule.materializeOnParentUpdatedRule).toSnapshot,
          some (.parentUpdated (getFrozenAssetKeySet d "updated_asset_keys")
            (getFrozenAssetKeySet d "will_update_asset_keys"))⟩
    ∧ unpackLegacyCondition .parentOutdatedAutoMaterializeCondition d
      = .ok ⟨(AutoMaterializeRule.skipOnParentOutdatedRule).toSnapshot,
          some (.waitingOnAssets (getFrozenAssetKeySet d "waiting_on_asset_keys"))⟩
    ∧ unpackLegacyCondition .maxMaterializationsExceededAutoMaterializeCondition d
      = .ok ⟨(AutoMaterializeRule.discardOnMaxMaterializationsExceededRule 1).toSnapshot, none⟩
    ∧ (∀ key, d.lookup key = none → getFrozenAssetKeySet d key = [])
    ∧ (∀ key, d.lookup key = some .otherValue → getFrozenAssetKeySet d key = [])
    ∧ (∀ key ks, d.lookup key = some (.keySet ks) → getFrozenAssetKeySet d key = ks)
    ∧ (∀ name, unpackLegacyCondition (.otherClass name) d
        = .error ("Unexpected class " ++ name)) :=
  ⟨rfl, rfl, rfl, rfl, rfl, rfl,
    fun key h => by simp [getFrozenAssetKeySet, h],
    fun key h => by simp [getFrozenAssetKeySet, h],
    fun key ks h => by simp [getFrozenAssetKeySet, h],
    fun _ => rfl⟩

/-- C6, witness: the decode table instantiated on a concrete legacy payload
holding a key set under "updated_asset_keys" and a non-set value under
"will_update_asset_keys". -/
theorem claim_c6_witness :
    legacyDictFixture.lookup "will_update_asset_keys" = some .otherValue
    ∧ getFrozenAssetKeySet legacyDictFixture "will_update_asset_keys" = []
    ∧ legacyDictFixture.lookup "updated_asset_keys" = some (.keySet [akA])
    ∧ getFrozenAssetKeySet legacyDictFixture "updated_asset_keys" = [akA] :=
  ⟨by decide, (claim_c6 legacyDictFixture).2.2.2.2.2.2.2.1 "will_update_asset_keys" (by decide),
    by decide, (claim_c6 legacyDictFixture).2.2.2.2.2.2.2.2.1 "updated_asset_keys" [akA] (by decide)⟩

/-- C8: two rule instances of different concrete variant classes with empty
configuration tuples compare unequal in both directions, and their hashes
differ whenever the primitive CPython hash oracles separate the two class
objects and the outer integer hash is injective (as CPython's are on the values
involved). -/
theorem claim_c8 (r1 r2 : AutoMaterializeRule)
    (h1 : r1.fieldsTuple = []) (h2 : r2.fieldsTuple = [])
    (hne : r1.className ≠ r2.className)
    (hashType : String → Int) (hashInt : Int → Int)
    (hashTuple : List PyConfigValue → Int)
    (hht : hashType r1.className ≠ hashType r2.className)
    (hhi : Function.Injective hashInt) :
    AutoMaterializeRule.ruleEq r1 r2 = false
    ∧ AutoMaterializeRule.ruleEq r2 r1 = false
    ∧ AutoMaterializeRule.ruleHash hashType hashInt hashTuple r1
        ≠ AutoMaterializeRule.ruleHash hashType hashInt hashTuple r2 := by
  refine ⟨?_, ?_, ?_⟩
  · simp [AutoMaterializeRule.ruleEq, hne]
  · have hne2 : r2.className ≠ r1.className := fun h => hne h.symm
    simp [AutoMaterializeRule.ruleEq, hne2]
  · intro h
    unfold AutoMaterializeRule.ruleHash at h
    have := hhi h
    rw [h1, h2] at this
    exact hht (by omega)

/-- C8, witness: the Missing and ParentMissing rules, both with empty
configuration, instantiated with concrete hash oracles. -/
theorem claim_c8_witness :
    (AutoMaterializeRule.materializeOnMissingRule).fieldsTuple = []
    ∧ (AutoMaterializeRule.skipOnParentMissingRule).fieldsTuple = []
    ∧ (AutoMaterializeRule.materializeOnMissingRule).className
        ≠ (AutoMaterializeRule.skipOnParentMissingRule).className
    ∧ hashTypeFixture (AutoMaterializeRule.materializeOnMissingRule).className
        ≠ hashTypeFixture (AutoMaterializeRule.skipOnParentMissingRule).className
    ∧ AutoMaterializeRule.ruleEq .materializeOnMissingRule .skipOnParentMissingRule = false
    ∧ AutoMaterializeRule.ruleHash hashTypeFixture (fun n => n) hashTupleFixture
        .materializeOnMissingRule
      ≠ AutoMaterializeRule.ruleHash hashTypeFixture (fun n => n) hashTupleFixture
        .skipOnParentMissingRule :=
  ⟨rfl, rfl, by decide, by decide,
    (claim_c8 .materializeOnMissingRule .skipOnParentMissingRule rfl rfl (by decide)
      hashTypeFixture (fun n => n) hashTupleFixture (by decide) (fun a b h => h)).1,
    (claim_c8 .materializeOnMissingRule .skipOnParentMissingRule rfl rfl (by decide)
      hashTypeFixture (fun n => n) hashTupleFixture (by decide) (fun a b h => h)).2.2⟩

/-- C4: the equivalence check against a stored record returns false when the
stored record is absent or its requested or discarded count is non-zero; when
the counts and header fields permit, records whose sorted conditions
deserialize to the same logical results are judged equivalent even when their
serialized strings differ (the deserialization fallback); and records whose
deserialized conditions differ are judged non-equivalent. -/
theorem claim_c4 (e se : AutoMaterializeAssetEvaluation)
    (graph : AssetKey → Option PartitionsDef) :
    (e.equivalentToStoredEvaluation none graph = false)
    ∧ (se.numRequested ≠ 0 → e.equivalentToStoredEvaluation (some se) graph = false)
    ∧ (se.numDiscarded ≠ 0 → e.equivalentToStoredEvaluation (some se) graph = false)
    ∧ (e.assetKey = se.assetKey →
        listSetEq (e.ruleSnapshots.getD []) (se.ruleSnapshots.getD []) = true →
        se.numRequested = 0 → se.numDiscarded = 0 → se.numSkipped = e.numSkipped →
        listEqBy deserializedResultEq (deserializedSortedConditions e e graph)
          (deserializedSortedConditions e se graph) = true →
        e.equivalentToStoredEvaluation (some se) graph = true)
    ∧ (listEqBy deserializedResultEq (deserializedSortedConditions e e graph)
          (deserializedSortedConditions e se graph) = false →
        e.equivalentToStoredEvaluation (some se) graph = false) := by
  refine ⟨rfl, ?_, ?_, ?_, ?_⟩
  · intro h
    have hd : (decide (se.numRequested = 0)) = false := decide_eq_false h
    simp [AutoMaterializeAssetEvaluation.equivalentToStoredEvaluation, hd]
  · intro h
    have hd : (decide (se.numDiscarded = 0)) = false := decide_eq_false h
    simp [AutoMaterializeAssetEvaluation.equivalentToStoredEvaluation, hd]
  · intro h1 h2 h3 h4 h5 h6
    have hlen : (sortConditions e.partitionSubsetsByCondition).length
        = (sortConditions se.partitionSubsetsByCondition).length := by
      have := listEqBy_length deserializedResultEq h6
      simpa [deserializedSortedConditions] using this
    simp [AutoMaterializeAssetEvaluation.equivalentToStoredEvaluation, h1, h2, h3, h4, h5, h6,
      hlen]
  · intro h
    cases heq : e.equivalentToStoredEvaluation (some se) graph with
    | false => rfl
    | true =>
      exfalso
      simp only [AutoMaterializeAssetEvaluation.equivalentToStoredEvaluation,
        Bool.and_eq_true, Bool.or_eq_true, decide_eq_true_eq] at heq
      rcases heq.2 with hraw | hfb
      · have : deserializedSortedConditions e se graph = deserializedSortedConditions e e graph := by
          unfold deserializedSortedConditions
          rw [hraw]
        rw [this, listEqBy_refl deserializedResultEq deserializedResultEq_refl] at h
        cases h
      · rw [hfb] at h
        cases h

/-- C4, witness: two records over the same logical two-partition subset with
different serialized encodings "x,y" and "y,x" are judged equivalent through
the deserialization fallback, while their raw condition lists differ. -/
theorem claim_c4_witness :
    recordEncodingXY.partitionSubsetsByCondition
        ≠ recordEncodingYX.partitionSubsetsByCondition
    ∧ listEqBy deserializedResultEq
        (deserializedSortedConditions recordEncodingXY recordEncodingXY graphXY)
        (deserializedSortedConditions recordEncodingXY recordEncodingYX graphXY) = true
    ∧ recordEncodingXY.equivalentToStoredEvaluation (some recordEncodingYX) graphXY = true :=
  ⟨by decide, by decide,
    (claim_c4 recordEncodingXY recordEncodingYX graphXY).2.2.2.1 rfl (by decide) rfl rfl rfl
      (by decide)⟩

/-- C7: the backfill skip rule with all_partitions = true returns exactly the
candidates whose asset key belongs to the active backfill target (an asset with
at least one partition under an active backfill), with all_partitions = false
exactly the candidates themselves targeted by an active backfill; its result is
a function of the candidate set and the live backfill state alone (no
carry-forward from the previous tick's record), and it is empty when no
candidate matches. -/
theorem claim_c7 (ctx : RuleEvaluationContext) :
    (∀ ap, ap ∈ evaluatedAssetPartitionsOf
        (SkipOnBackfillInProgressRule.evaluateForAsset true ctx) ↔
      ap ∈ ctx.candidates ∧
        ap.assetKey ∈ ctx.instanceQueryer.getActiveBackfillTargetAssetGraphSubset.assetKeys)
    ∧ (∀ ap, ap ∈ evaluatedAssetPartitionsOf
        (SkipOnBackfillInProgressRule.evaluateForAsset false ctx) ↔
      ap ∈ ctx.candidates ∧
        ctx.instanceQueryer.getActiveBackfillTargetAssetGraphSubset.containsAssetPartition ap
          = true)
    ∧ (∀ (ctx2 : RuleEvaluationContext) (allPartitions : Bool),
        ctx2.candidates = ctx.candidates →
        ctx2.instanceQueryer.getActiveBackfillTargetAssetGraphSubset
          = ctx.instanceQueryer.getActiveBackfillTargetAssetGraphSubset →
        SkipOnBackfillInProgressRule.evaluateForAsset allPartitions ctx2
          = SkipOnBackfillInProgressRule.evaluateForAsset allPartitions ctx)
    ∧ ((∀ c ∈ ctx.candidates,
        c.assetKey ∉ ctx.instanceQueryer.getActiveBackfillTargetAssetGraphSubset.assetKeys) →
        SkipOnBackfillInProgressRule.evaluateForAsset true ctx = [])
    ∧ ((∀ c ∈ ctx.candidates,
        ctx.instanceQueryer.getActiveBackfillTargetAssetGraphSubset.containsAssetPartition c
          = false) →
        SkipOnBackfillInProgressRule.evaluateForAsset false ctx = []) := by
  refine ⟨?_, ?_, ?_, ?_, ?_⟩
  · intro ap
    unfold SkipOnBackfillInProgressRule.evaluateForAsset
    simp only [if_true]
    split
    case isTrue hemp =>
      have hnil := List.isEmpty_iff.mp hemp
      simp only [evaluatedAssetPartitionsOf, List.map_nil, List.flatten_nil,
        List.not_mem_nil, false_iff]
      rintro ⟨hm, hk⟩
      have : ap ∈ ctx.candidates.filter (fun candidate =>
          decide (candidate.assetKey ∈
            ctx.instanceQueryer.getActiveBackfillTargetAssetGraphSubset.assetKeys)) :=
        List.mem_filter.mpr ⟨hm, by simpa using hk⟩
      rw [hnil] at this
      cases this
    case isFalse =>
      simp [evaluatedAssetPartitionsOf, List.mem_filter]
  · intro ap
    unfold SkipOnBackfillInProgressRule.evaluateForAsset
    simp only [Bool.false_eq_true, if_false]
    split
    case isTrue hemp =>
      have hnil := List.isEmpty_iff.mp hemp
      simp only [evaluatedAssetPartitionsOf, List.map_nil, List.flatten_nil,
        List.not_mem_nil, false_iff]
      rintro ⟨hm, hk⟩
      have : ap ∈ ctx.candidates.filter (fun candidate =>
          ctx.instanceQueryer.getActiveBackfillTargetAssetGraphSubset.containsAssetPartition
            candidate) :=
        List.mem_filter.mpr ⟨hm, hk⟩
      rw [hnil] at this
      cases this
    case isFalse =>
      simp [evaluatedAssetPartitionsOf, List.mem_filter]
  · intro ctx2 allPartitions h1 h2
    unfold SkipOnBackfillInProgressRule.evaluateForAsset
    rw [h1, h2]
  · intro h
    unfold SkipOnBackfillInProgressRule.evaluateForAsset
    have hnil : ctx.candidates.filter (fun candidate =>
        decide (candidate.assetKey ∈
          ctx.instanceQueryer.getActiveBackfillTargetAssetGraphSubset.assetKeys)) = [] := by
      rw [List.filter_eq_nil_iff]
      intro a ha
      simp [h a ha]
    simp [hnil]
  · intro h
    unfold SkipOnBackfillInProgressRule.evaluateForAsset
    have hnil : ctx.candidates.filter (fun candidate =>
        ctx.instanceQueryer.getActiveBackfillTargetAssetGraphSubset.containsAssetPartition
          candidate) = [] := by
      rw [List.filter_eq_nil_iff]
      intro a ha
      simp [h a ha]
    simp [hnil]

/-- C7, witness: with an active backfill targeting exactly `apP1` of asset
`akA` and candidates `apP1`, `apP2`: the all-partitions variant skips both,
the targeted variant skips only `apP1`. -/
theorem claim_c7_witness :
    (apP2 ∈ ctxBackfill.candidates ∧
      apP2.assetKey ∈
        ctxBackfill.instanceQueryer.getActiveBackfillTargetAssetGraphSubset.assetKeys)
    ∧ apP2 ∈ evaluatedAssetPartitionsOf
        (SkipOnBackfillInProgressRule.evaluateForAsset true ctxBackfill)
    ∧ ¬(apP2 ∈ evaluatedAssetPartitionsOf
        (SkipOnBackfillInProgressRule.evaluateForAsset false ctxBackfill)) :=
  ⟨by decide, ((claim_c7 ctxBackfill).1 apP2).mpr (by decide),
    fun h => by
      have := ((claim_c7 ctxBackfill).2.1 apP2).mp h
      revert this
      decide⟩


/-- C9: the parent-updated rule consults the updated-parents query only through
calls whose ignored-parents set is exactly the asset's own key (so
self-referential parents are always excluded) and whose precise
data-version-aware flag is set only when data versions are respected and the
combined count of the partition's parents and the has-or-will-update set stays
below 100: two oracles that agree on all such calls produce identical rule
results, whatever they answer elsewhere. -/
theorem claim_c9 (ctx : RuleEvaluationContext)
    (f g : AssetKeyPartitionKey → List AssetKeyPartitionKey → Bool → List AssetKey →
      List AssetKeyPartitionKey)
    (hagree : ∀ (ap : AssetKeyPartitionKey) (parentPartitions : List AssetKeyPartitionKey)
      (b : Bool),
      (b = true → ctx.respectMaterializationDataVersions = true ∧
        setCard (parentPartitions ++ parentUpdatedHasOrWillUpdate ctx) < 100) →
      f ap parentPartitions b [ctx.assetKey] = g ap parentPartitions b [ctx.assetKey]) :
    MaterializeOnParentUpdatedRule.evaluateForAsset
        {ctx with instanceQueryer :=
          {ctx.instanceQueryer with getParentAssetPartitionsUpdatedAfterChild := f}}
      = MaterializeOnParentUpdatedRule.evaluateForAsset
        {ctx with instanceQueryer :=
          {ctx.instanceQueryer with getParentAssetPartitionsUpdatedAfterChild := g}} := by
  obtain ⟨ak, le, ag, ⟨q1, q2, q3, q4⟩, wm, cd, nu, rv, sk⟩ := ctx
  dsimp only [MaterializeOnParentUpdatedRule.evaluateForAsset,
    parentUpdatedHasOrWillUpdate, RuleEvaluationContext.getWillUpdateParentMapping,
    RuleEvaluationContext.getAssetPartitionsWithUpdatedParents,
    RuleEvaluationContext.materializableInSameRun,
    RuleEvaluationContext.getPreviousTickResults,
    RuleEvaluationContext.previousTickEvaluation,
    RuleEvaluationContext.materializedRequestedOrDiscardedSincePreviousTick,
    RuleEvaluationContext.previousTickRequestedOrDiscardedAssetPartitions] at hagree ⊢
  congr 1
  apply List.foldl_ext
  intro acc x hx
  rw [hagree]
  intro hb
  have h1 : rv = true := by
    cases hr : rv
    · rw [hr, Bool.false_and] at hb
      cases hb
    · rfl
  rw [h1, Bool.true_and] at hb
  exact ⟨h1, of_decide_eq_true hb⟩

/-- C9, witness: the agreement hypothesis instantiated with one concrete
oracle on a context with a newly updated parent. -/
theorem claim_c9_witness :
    (∀ (ap : AssetKeyPartitionKey) (parentPartitions : List AssetKeyPartitionKey) (b : Bool),
      (b = true → ctxParentUpdated.respectMaterializationDataVersions = true ∧
        setCard (parentPartitions ++ parentUpdatedHasOrWillUpdate ctxParentUpdated) < 100) →
      constEmptyUpdatedOracle ap parentPartitions b [ctxParentUpdated.assetKey]
        = constEmptyUpdatedOracle ap parentPartitions b [ctxParentUpdated.assetKey])
    ∧ MaterializeOnParentUpdatedRule.evaluateForAsset
        {ctxParentUpdated with instanceQueryer :=
          {ctxParentUpdated.instanceQueryer with
            getParentAssetPartitionsUpdatedAfterChild := constEmptyUpdatedOracle}}
      = MaterializeOnParentUpdatedRule.evaluateForAsset
        {ctxParentUpdated with instanceQueryer :=
          {ctxParentUpdated.instanceQueryer with
            getParentAssetPartitionsUpdatedAfterChild := constEmptyUpdatedOracle}} :=
  ⟨fun _ _ _ _ => rfl,
    claim_c9 ctxParentUpdated constEmptyUpdatedOracle constEmptyUpdatedOracle
      (fun _ _ _ _ => rfl)⟩

/-- C5: under a sort key that is injective on the (duplicate-free) candidate
set, the discard rule fires exactly on the candidates with at least `limit`
candidates of strictly smaller sort key — a characterization independent of the
iteration order of the candidate set — and produces no firing when the
candidate count is at most `limit`. -/
theorem claim_c5 (limit : Nat) (ctx : RuleEvaluationContext)
    (hinj : ∀ a ∈ ctx.candidates, ∀ b ∈ ctx.candidates,
      ctx.sortKeyForAssetPartition a = ctx.sortKeyForAssetPartition b → a = b)
    (hnd : ctx.candidates.Nodup) :
    (∀ ap, ap ∈ evaluatedAssetPartitionsOf
        (DiscardOnMaxMaterializationsExceededRule.evaluateForAsset limit ctx) ↔
      ap ∈ ctx.candidates ∧
        limit ≤ (ctx.candidates.filter (fun b =>
          decide (ctx.sortKeyForAssetPartition b < ctx.sortKeyForAssetPartition ap))).length)
    ∧ (ctx.candidates.length ≤ limit →
        DiscardOnMaxMaterializationsExceededRule.evaluateForAsset limit ctx = []) := by
  have hperm : List.Perm (List.insertionSort (sortKeyLE ctx) ctx.candidates) ctx.candidates :=
    List.perm_insertionSort _ _
  have hsorted0 : List.Sorted (sortKeyLE ctx)
      (List.insertionSort (sortKeyLE ctx) ctx.candidates) := by
    letI : IsTotal AssetKeyPartitionKey (sortKeyLE ctx) := ⟨fun a b => le_total _ _⟩
    letI : IsTrans AssetKeyPartitionKey (sortKeyLE ctx) :=
      ⟨fun a b c hab hbc => le_trans hab hbc⟩
    exact List.sorted_insertionSort _ _
  have hsorted : (List.insertionSort (sortKeyLE ctx) ctx.candidates).Pairwise
      (fun a b => ctx.sortKeyForAssetPartition a ≤ ctx.sortKeyForAssetPartition b) :=
    hsorted0
  have hndS : (List.insertionSort (sortKeyLE ctx) ctx.candidates).Nodup :=
    (hperm.nodup_iff).mpr hnd
  have hinjS : ∀ a ∈ List.insertionSort (sortKeyLE ctx) ctx.candidates,
      ∀ b ∈ List.insertionSort (sortKeyLE ctx) ctx.candidates,
      ctx.sortKeyForAssetPartition a = ctx.sortKeyForAssetPartition b → a = b :=
    fun a ha b hb => hinj a (hperm.subset ha) b (hperm.subset hb)
  have hplt := pairwise_lt_of_sorted_nodup ctx.sortKeyForAssetPartition _ hsorted hndS hinjS
  constructor
  · intro ap
    simp only [DiscardOnMaxMaterializationsExceededRule.evaluateForAsset]
    split
    case isTrue hemp =>
      have hnil := List.isEmpty_iff.mp hemp
      simp only [evaluatedAssetPartitionsOf, List.map_nil, List.flatten_nil, List.not_mem_nil,
        false_iff]
      rintro ⟨hm, hl⟩
      have hlen : (List.insertionSort (sortKeyLE ctx) ctx.candidates).length ≤ limit :=
        List.drop_eq_nil_iff.mp hnil
      have hfl := (hperm.filter (fun b =>
        decide (ctx.sortKeyForAssetPartition b < ctx.sortKeyForAssetPartition ap))).length_eq
      have hlt := length_filter_lt_of_mem_not (fun b =>
        decide (ctx.sortKeyForAssetPartition b < ctx.sortKeyForAssetPartition ap))
        ctx.candidates ap hm (by simp)
      have hcl := hperm.length_eq
      omega
    case isFalse hne =>
      simp only [evaluatedAssetPartitionsOf, List.map_cons, List.map_nil, List.flatten_cons,
        List.flatten_nil, List.append_nil]
      rw [mem_drop_iff_of_pairwise_lt ctx.sortKeyForAssetPartition _ limit ap hplt]
      have hfl := (hperm.filter (fun b =>
        decide (ctx.sortKeyForAssetPartition b < ctx.sortKeyForAssetPartition ap))).length_eq
      rw [hperm.mem_iff, hfl]
  · intro hlen
    simp only [DiscardOnMaxMaterializationsExceededRule.evaluateForAsset]
    have hnil : (List.insertionSort (sortKeyLE ctx) ctx.candidates).drop limit = [] :=
      List.drop_eq_nil_iff.mpr (by rw [hperm.length_eq]; exact hlen)
    simp [hnil]

/-- C5, witness: three partitions with sort keys 1, 2, 3 presented in the order
p3, p1, p2 and limit 1: the rule discards exactly the candidates with at least
one strictly smaller key, that is p2 and p3. -/
theorem claim_c5_witness :
    (∀ a ∈ ctxDiscard.candidates, ∀ b ∈ ctxDiscard.candidates,
      ctxDiscard.sortKeyForAssetPartition a = ctxDiscard.sortKeyForAssetPartition b → a = b)
    ∧ ctxDiscard.candidates.Nodup
    ∧ (∀ ap, ap ∈ evaluatedAssetPartitionsOf
        (DiscardOnMaxMaterializationsExceededRule.evaluateForAsset 1 ctxDiscard) ↔
      ap ∈ ctxDiscard.candidates ∧
        1 ≤ (ctxDiscard.candidates.filter (fun b =>
          decide (ctxDiscard.sortKeyForAssetPartition b
            < ctxDiscard.sortKeyForAssetPartition ap))).length) :=
  ⟨by decide, by decide, (claim_c5 1 ctxDiscard (by decide) (by decide)).1⟩

/-- C1, amended: the final requested set is always a subset of the
materialize-rule union, and the discard rule's and the backfill skip rule's
returned partitions are always subsets of their input candidate sets; but a
carry-forward skip rule's returned results are only guaranteed to lie inside
its candidate set for the freshly evaluated part: every returned partition is
either a current candidate or a previous-tick result partition outside the
rule's candidates-to-evaluate set that was re-introduced by carry-forward. -/
theorem claim_c1 :
    (∀ (materializeOutputs skipOutputs discardOutputs : List (List AssetKeyPartitionKey)),
      ∀ ap ∈ pipelineFinalRequested materializeOutputs skipOutputs discardOutputs,
        ap ∈ materializeOutputs.foldl listUnion [])
    ∧ (∀ (limit : Nat) (ctx : RuleEvaluationContext),
        ∀ ap ∈ evaluatedAssetPartitionsOf
          (DiscardOnMaxMaterializationsExceededRule.evaluateForAsset limit ctx),
          ap ∈ ctx.candidates)
    ∧ (∀ (allPartitions : Bool) (ctx : RuleEvaluationContext),
        ∀ ap ∈ evaluatedAssetPartitionsOf
          (SkipOnBackfillInProgressRule.evaluateForAsset allPartitions ctx),
          ap ∈ ctx.candidates)
    ∧ (∀ (ctx : RuleEvaluationContext) (d : Option AutoMaterializeRuleEvaluationData)
        (ap : AssetKeyPartitionKey),
        ap ∈ bucketOf (SkipOnParentMissingRule.evaluateForAsset ctx) d →
          ap ∈ ctx.candidates ∨
            (ap ∉ skipRuleCandidatesToEvaluate ctx ∧
              ∃ e ∈ ctx.getPreviousTickResults .skipOnParentMissingRule,
                d = e.1 ∧ ap ∈ e.2)) := by
  refine ⟨?_, ?_, ?_, ?_⟩
  · intro materializeOutputs skipOutputs discardOutputs ap h
    simp only [pipelineFinalRequested, mem_listDiff] at h
    exact h.1.1
  · intro limit ctx ap h
    simp only [DiscardOnMaxMaterializationsExceededRule.evaluateForAsset] at h
    split at h
    case isTrue => simp [evaluatedAssetPartitionsOf] at h
    case isFalse =>
      simp only [evaluatedAssetPartitionsOf, List.map_cons, List.map_nil, List.flatten_cons,
        List.flatten_nil, List.append_nil] at h
      exact (List.perm_insertionSort (sortKeyLE ctx) ctx.candidates).subset
        (List.drop_subset _ _ h)
  · intro allPartitions ctx ap h
    cases allPartitions
    case false =>
      simp only [SkipOnBackfillInProgressRule.evaluateForAsset, Bool.false_eq_true,
        if_false] at h
      split at h
      case isTrue => simp [evaluatedAssetPartitionsOf] at h
      case isFalse =>
        simp only [evaluatedAssetPartitionsOf, List.map_cons, List.map_nil, List.flatten_cons,
          List.flatten_nil, List.append_nil] at h
        exact (List.mem_filter.mp h).1
    case true =>
      simp only [SkipOnBackfillInProgressRule.evaluateForAsset, if_true] at h
      split at h
      case isTrue => simp [evaluatedAssetPartitionsOf] at h
      case isFalse =>
        simp only [evaluatedAssetPartitionsOf, List.map_cons, List.map_nil, List.flatten_cons,
          List.flatten_nil, List.append_nil] at h
        exact (List.mem_filter.mp h).1
  · intro ctx d ap h
    simp only [SkipOnParentMissingRule.evaluateForAsset] at h
    rcases mem_bucketOf_addEvaluationData.mp h with hcur | ⟨_, hpred, hex⟩
    · left
      have hsub := mem_bucketOf_foldl_insertSelf _ ?_ _ _ _ _ hcur
      case refine_1 =>
        intro acc c d2 ap2 hm
        split at hm
        · exact Or.inl hm
        · rcases mem_bucketOf_assocInsert.mp hm with ⟨_, rfl⟩ | hm2
          · exact Or.inr rfl
          · exact Or.inl hm2
      rcases hsub with h3 | h3
      · simp [bucketOf] at h3
      · rcases mem_listUnion.mp h3 with h4 | h4
        · exact (mem_listDiff.mp h4).1
        · exact (mem_listInter.mp h4).1
    · right
      exact ⟨of_decide_eq_true hpred, hex⟩

/-- C1, witness: the pipeline subset property instantiated on one materialize
output. -/
theorem claim_c1_witness :
    apA ∈ pipelineFinalRequested [[apA]] [] []
    ∧ apA ∈ ([[apA]] : List (List AssetKeyPartitionKey)).foldl listUnion [] :=
  ⟨by decide, claim_c1.1 [[apA]] [] [] apA (by decide)⟩

/-- C1, counterexample: with an empty current candidate set and a previous-tick
record holding a skip firing for the unpartitioned partition of the asset, the
parent-missing skip rule re-introduces that partition through carry-forward, so
its returned results are not a subset of the candidate set it was given. -/
theorem claim_c1_counterexample :
    apA ∈ evaluatedAssetPartitionsOf
      (SkipOnParentMissingRule.evaluateForAsset ctxCarryForward)
    ∧ apA ∉ ctxCarryForward.candidates := by
  decide

/-- C2: for the carry-forward combinator: a partition with freshly computed
evaluation data this tick keeps exactly its current-tick buckets (previous-tick
data never overwrites them); a partition without fresh data appears in the
combined result only with a data key taken from a previous-tick entry
containing it and only when should_use_past_data_fn holds of it; and when no
partition carries two different data keys within the fresh results or within
the previous results, the combined result holds at most one evaluation-data
entry per partition. -/
theorem claim_c2 (current previous : RuleEvaluationResults)
    (pred : AssetKeyPartitionKey → Bool)
    (hkeys : (current.map Prod.fst).Nodup)
    (hcur : ∀ e1 ∈ current, ∀ e2 ∈ current, ∀ ap, ap ∈ e1.2 → ap ∈ e2.2 → e1.1 = e2.1)
    (hprev : ∀ e1 ∈ previous, ∀ e2 ∈ previous, ∀ ap, ap ∈ e1.2 → ap ∈ e2.2 → e1.1 = e2.1) :
    (∀ ap ∈ evaluatedAssetPartitionsOf current, ∀ d,
      (ap ∈ bucketOf (addEvaluationDataFromPreviousTick current previous pred) d ↔
        ap ∈ bucketOf current d))
    ∧ (∀ ap d, ap ∉ evaluatedAssetPartitionsOf current →
        ap ∈ bucketOf (addEvaluationDataFromPreviousTick current previous pred) d →
        pred ap = true ∧ ∃ e ∈ previous, d = e.1 ∧ ap ∈ e.2)
    ∧ (((addEvaluationDataFromPreviousTick current previous pred).map Prod.fst).Nodup)
    ∧ (∀ e1 ∈ addEvaluationDataFromPreviousTick current previous pred,
        ∀ e2 ∈ addEvaluationDataFromPreviousTick current previous pred,
        ∀ ap, ap ∈ e1.2 → ap ∈ e2.2 → e1 = e2) := by
  have hnodupC := @nodup_keys_addEvaluationData current previous pred hkeys
  refine ⟨?_, ?_, hnodupC, ?_⟩
  · intro ap hev d
    rw [mem_bucketOf_addEvaluationData]
    constructor
    · rintro (h | ⟨hnev, _, _⟩)
      · exact h
      · exact absurd hev hnev
    · exact Or.inl
  · intro ap d hnev h
    rcases mem_bucketOf_addEvaluationData.mp h with h2 | ⟨_, hpred, hex⟩
    · exfalso
      obtain ⟨e, he, _, hmem⟩ := mem_bucketOf_exists h2
      exact hnev (mem_evaluatedAssetPartitionsOf.mpr ⟨e, he, hmem⟩)
    · exact ⟨hpred, hex⟩
  · intro e1 h1 e2 h2 ap ha1 ha2
    have hb1 : ap ∈ bucketOf (addEvaluationDataFromPreviousTick current previous pred) e1.1 :=
      mem_entry_bucketOf hnodupC h1 ha1
    have hb2 : ap ∈ bucketOf (addEvaluationDataFromPreviousTick current previous pred) e2.1 :=
      mem_entry_bucketOf hnodupC h2 ha2
    have hkey : e1.1 = e2.1 := by
      rcases mem_bucketOf_addEvaluationData.mp hb1 with c1 | ⟨hnev1, _, f1, hf1, hd1, hm1⟩ <;>
        rcases mem_bucketOf_addEvaluationData.mp hb2 with c2 | ⟨hnev2, _, f2, hf2, hd2, hm2⟩
      · obtain ⟨g1, hg1, hk1, hmm1⟩ := mem_bucketOf_exists c1
        obtain ⟨g2, hg2, hk2, hmm2⟩ := mem_bucketOf_exists c2
        rw [← hk1, ← hk2]
        exact hcur g1 hg1 g2 hg2 ap hmm1 hmm2
      · exfalso
        obtain ⟨g1, hg1, _, hmm1⟩ := mem_bucketOf_exists c1
        exact hnev2 (mem_evaluatedAssetPartitionsOf.mpr ⟨g1, hg1, hmm1⟩)
      · exfalso
        obtain ⟨g2, hg2, _, hmm2⟩ := mem_bucketOf_exists c2
        exact hnev1 (mem_evaluatedAssetPartitionsOf.mpr ⟨g2, hg2, hmm2⟩)
      · rw [hd1, hd2]
        exact hprev f1 hf1 f2 hf2 ap hm1 hm2
    exact entries_eq_of_nodup_keys hnodupC h1 h2 hkey

/-- C2, witness: fresh data for `apA` under one key and previous-tick data for
`apA` and `apB` under another key, with an always-true predicate. -/
theorem claim_c2_witness :
    (currentResultsFixture.map Prod.fst).Nodup
    ∧ (∀ e1 ∈ currentResultsFixture, ∀ e2 ∈ currentResultsFixture,
        ∀ ap, ap ∈ e1.2 → ap ∈ e2.2 → e1.1 = e2.1)
    ∧ (∀ e1 ∈ previousResultsFixture, ∀ e2 ∈ previousResultsFixture,
        ∀ ap, ap ∈ e1.2 → ap ∈ e2.2 → e1.1 = e2.1)
    ∧ (∀ ap ∈ evaluatedAssetPartitionsOf currentResultsFixture, ∀ d,
        (ap ∈ bucketOf (addEvaluationDataFromPreviousTick currentResultsFixture
          previousResultsFixture (fun _ => true)) d ↔
          ap ∈ bucketOf currentResultsFixture d)) :=
  ⟨by decide, by decide, by decide,
    (claim_c2 currentResultsFixture previousResultsFixture (fun _ => true)
      (by decide) (by decide) (by decide)).1⟩

/-- C10: reconstructing prior-tick results is total and silently drops invalid
entries: a null stored subset is read as the single unpartitioned partition
exactly when the asset is currently unpartitioned, and in every failure case
(null subset but a partitions definition now exists, subset that no longer
deserializes, subset stored while the asset is now unpartitioned) the entry is
excluded: removing it from the record changes neither the reconstructed rule
results nor the decision-type, requested-or-discarded or evaluated sets. -/
theorem claim_c10 :
    (∀ (assetKey : AssetKey) (re : AutoMaterializeRuleEvaluation)
        (graph : AssetKey → Option PartitionsDef),
      graph assetKey = none →
        deserializeRuleEvaluationResult assetKey re none graph
          = some (re.evaluationData, [⟨assetKey, none⟩]))
    ∧ (∀ (assetKey : AssetKey) (re : AutoMaterializeRuleEvaluation)
        (graph : AssetKey → Option PartitionsDef) (pd : PartitionsDef),
        graph assetKey = some pd →
          deserializeRuleEvaluationResult assetKey re none graph = none)
    ∧ (∀ (assetKey : AssetKey) (re : AutoMaterializeRuleEvaluation)
        (s : SerializedPartitionsSubset) (graph : AssetKey → Option PartitionsDef)
        (pd : PartitionsDef),
        graph assetKey = some pd → pd.canDeserialize s = false →
          deserializeRuleEvaluationResult assetKey re (some s) graph = none)
    ∧ (∀ (assetKey : AssetKey) (re : AutoMaterializeRuleEvaluation)
        (s : SerializedPartitionsSubset) (graph : AssetKey → Option PartitionsDef),
        graph assetKey = none →
          deserializeRuleEvaluationResult assetKey re (some s) graph = none)
    ∧ (∀ (ak : AssetKey) (pre post : List EvaluationCondition)
        (re : AutoMaterializeRuleEvaluation) (ss : Option SerializedPartitionsSubset)
        (nr ns nd : Nat) (rids : List String)
        (rsnaps : Option (List AutoMaterializeRuleSnapshot))
        (graph : AssetKey → Option PartitionsDef),
        deserializeRuleEvaluationResult ak re ss graph = none →
        ∀ (snapshot : AutoMaterializeRuleSnapshot) (dt : AutoMaterializeDecisionType),
          (AutoMaterializeAssetEvaluation.mk ak (pre ++ (re, ss) :: post) nr ns nd rids
              rsnaps).getRuleEvaluationResults snapshot graph
            = (AutoMaterializeAssetEvaluation.mk ak (pre ++ post) nr ns nd rids
              rsnaps).getRuleEvaluationResults snapshot graph
          ∧ (AutoMaterializeAssetEvaluation.mk ak (pre ++ (re, ss) :: post) nr ns nd rids
              rsnaps).getAssetPartitionsWithDecisionType dt graph
            = (AutoMaterializeAssetEvaluation.mk ak (pre ++ post) nr ns nd rids
              rsnaps).getAssetPartitionsWithDecisionType dt graph
          ∧ (AutoMaterializeAssetEvaluation.mk ak (pre ++ (re, ss) :: post) nr ns nd rids
              rsnaps).getRequestedOrDiscardedAssetPartitions graph
            = (AutoMaterializeAssetEvaluation.mk ak (pre ++ post) nr ns nd rids
              rsnaps).getRequestedOrDiscardedAssetPartitions graph
          ∧ (AutoMaterializeAssetEvaluation.mk ak (pre ++ (re, ss) :: post) nr ns nd rids
              rsnaps).getEvaluatedAssetPartitions graph
            = (AutoMaterializeAssetEvaluation.mk ak (pre ++ post) nr ns nd rids
              rsnaps).getEvaluatedAssetPartitions graph) := by
  refine ⟨?_, ?_, ?_, ?_, ?_⟩
  · intro assetKey re graph h
    simp [deserializeRuleEvaluationResult, h]
  · intro assetKey re graph pd h
    simp [deserializeRuleEvaluationResult, h]
  · intro assetKey re s graph pd h hcd
    simp [deserializeRuleEvaluationResult, h, hcd]
  · intro assetKey re s graph h
    simp [deserializeRuleEvaluationResult, h]
  · intro ak pre post re ss nr ns nd rids rsnaps graph hnone snapshot dt
    have hdt : ∀ dt2 : AutoMaterializeDecisionType,
        (AutoMaterializeAssetEvaluation.mk ak (pre ++ (re, ss) :: post) nr ns nd rids
            rsnaps).getAssetPartitionsWithDecisionType dt2 graph
          = (AutoMaterializeAssetEvaluation.mk ak (pre ++ post) nr ns nd rids
            rsnaps).getAssetPartitionsWithDecisionType dt2 graph := by
      intro dt2
      simp only [AutoMaterializeAssetEvaluation.getAssetPartitionsWithDecisionType,
        List.filter_append, List.filter_cons]
      by_cases hm : decide (re.ruleSnapshot.decisionType = dt2) = true
      · simp only [hm, if_true, List.foldl_append, List.foldl_cons, hnone]
      · simp only [Bool.not_eq_true] at hm
        simp only [hm, Bool.false_eq_true, if_false]
    refine ⟨?_, hdt dt, ?_, ?_⟩
    · simp only [AutoMaterializeAssetEvaluation.getRuleEvaluationResults,
        List.filter_append, List.filter_cons]
      by_cases hm : decide (re.ruleSnapshot = snapshot) = true
      · simp only [hm, if_true, List.filterMap_append, List.filterMap_cons, hnone]
      · simp only [Bool.not_eq_true] at hm
        simp only [hm, Bool.false_eq_true, if_false]
    · simp only [AutoMaterializeAssetEvaluation.getRequestedOrDiscardedAssetPartitions, hdt]
    · simp only [AutoMaterializeAssetEvaluation.getEvaluatedAssetPartitions, hdt]

/-- C10, witness: a record of the Missing rule holding one valid unpartitioned
entry and one entry whose stored subset no longer deserializes: removing the
broken entry leaves the reconstructed rule results unchanged. -/
theorem claim_c10_witness :
    deserializeRuleEvaluationResult akA missingRuleEvaluation (some ⟨"bad"⟩)
        unpartitionedGraph = none
    ∧ (AutoMaterializeAssetEvaluation.mk akA
          ([(missingRuleEvaluation, none)] ++ (missingRuleEvaluation, some ⟨"bad"⟩) :: [])
          0 0 0 [] none).getRuleEvaluationResults missingRuleEvaluation.ruleSnapshot
          unpartitionedGraph
      = (AutoMaterializeAssetEvaluation.mk akA ([(missingRuleEvaluation, none)] ++ [])
          0 0 0 [] none).getRuleEvaluationResults missingRuleEvaluation.ruleSnapshot
          unpartitionedGraph :=
  ⟨by decide,
    (claim_c10.2.2.2.2 akA [(missingRuleEvaluation, none)] [] missingRuleEvaluation
      (some ⟨"bad"⟩) 0 0 0 [] none unpartitionedGraph (by decide)
      missingRuleEvaluation.ruleSnapshot .MATERIALIZE).1⟩
